import Mathlib

/-!
# Infero: tensor marshalling around inference engines

A shallow embedding of the model layer of `ecmwf-lab/infero`:

* `InferenceModelBuffer` (`models/InferenceModel.h`): the owned copy of the model bytes;
* `InferenceModelONNX::infer`, `infer_mimo` (`models/InferenceModelONNX.cc`);
* `InferenceModelTFlite::infer`, `infer_mimo` (`models/InferenceModelTFlite.cc`);
* `MLTensor::convert_shape` (`MLTensor.h`).

C++ references and pointers become explicit state passing.  A call ends in a `Status`:
it returns, it throws (`ASSERT`, `INFERO_CHECK`, an exception of the engine), or it runs
into an out-of-range access, which C++ leaves undefined and at which the embedding stops.
The engines (`Ort::Session::Run`, `tflite::Interpreter::Invoke`) are parameters.
Tensor elements are only ever copied, so the element type `α` is arbitrary.
-/

namespace Infero

variable {α : Type} [Inhabited α]

/-! ## Outcome of a call -/

/-- How a C++ call ends: normal return, a thrown exception, or an out-of-range access
(undefined behaviour). -/
inductive Status where
  | returned
  | threw
  | undefined
deriving DecidableEq, Repr

/-! ## Integer widths -/

/-- Implicit conversion of an integer value to `size_t` (unsigned, 64 bits). -/
def toSizeT (x : Int) : Nat := (x % 2 ^ 64).toNat

/-- Implicit conversion of an integer value to `int64_t` (two's complement, 64 bits). -/
def toInt64 (x : Int) : Int := (x + 2 ^ 63) % 2 ^ 64 - 2 ^ 63

/-- Implicit conversion of an integer value to `int` (two's complement, 32 bits). -/
def toInt32 (x : Int) : Int := (x + 2 ^ 31) % 2 ^ 32 - 2 ^ 31

/-- The function `MLTensor::convert_shape<F, T>` (`MLTensor.h` 17-23; the `.cc` files call the same
template as `utils::convert_shape`): `std::copy` through a `back_inserter`, so every element
goes through the implicit conversion `cast` from `F` to `T`. -/
def convert_shape {F T : Type} (cast : F → T) (vec : List F) : List T :=
  vec.foldl (fun vec_new x => vec_new ++ [cast x]) []

/-- Conversion `size_t → int64_t` of one dimension. -/
def sizeToInt64 (d : Nat) : Int := toInt64 (d : Int)

/-- Conversion `size_t → int` of one dimension. -/
def sizeToInt (d : Nat) : Int := toInt32 (d : Int)

/-! ## Raw memory helpers -/

/-- The call `memcpy(dst, src, n)` on element arrays: the first `n` elements of `dst` are
replaced by those of `src`.  `none` when `n` exceeds either array (out-of-range access). -/
def memcpy {β : Type} (dst src : List β) (n : Nat) : Option (List β) :=
  if n ≤ dst.length ∧ n ≤ src.length then some (src.take n ++ dst.drop n) else none

/-- A callee reading `n` elements through the pointer `xs.data()`: `none` when the array
holds fewer than `n` elements. -/
def readArray {β : Type} (xs : List β) (n : Nat) : Option (List β) :=
  if n ≤ xs.length then some (xs.take n) else none

/-! ## Tensors and layout conversion -/

/-- Modelled from the spec: `eckit::linalg::TensorFloat`, the base class of `MLTensor`, is used
by every function below but its definition is not among the sources.  Spec §3: a flat buffer
`data`, a `shape` (outer to inner) and a layout tag.  `isRight = true` is the right layout
(column-major), `isRight = false` the left layout (row-major, the C layout of the engines). -/
structure Tensor (α : Type) where
  shape : List Nat
  data : List α
  isRight : Bool
deriving DecidableEq, Repr

/-- Modelled from the spec: the product of the dimensions (`size() == product(shape)`, §3). -/
def flatSize (shape : List Nat) : Nat := shape.prod

/-- Modelled from the spec: `Tensor::size()`, the element count `product(shape)`. -/
def Tensor.size (t : Tensor α) : Nat := flatSize t.shape

/-- Tensor invariant of spec §3: the buffer holds exactly `product(shape)` elements. -/
def Tensor.WellFormed (t : Tensor α) : Prop := t.data.length = flatSize t.shape

/-- Modelled from the spec: the stride set of the left (row-major) layout of §4.1; the last axis
varies fastest. -/
def stridesLeft : List Nat → List Nat
  | [] => []
  | _ :: ns => flatSize ns :: stridesLeft ns

/-- Modelled from the spec: the strides of the right layout for axes whose first stride is
`acc`. -/
def stridesRightFrom (acc : Nat) : List Nat → List Nat
  | [] => []
  | n :: ns => acc :: stridesRightFrom (acc * n) ns

/-- Modelled from the spec: the stride set of the right (column-major) layout of §4.1; the first
axis varies fastest. -/
def stridesRight (shape : List Nat) : List Nat := stridesRightFrom 1 shape

/-- Modelled from the spec: the linear index of a multi-index under a stride set (inner
product). -/
def linearIndex (idxs strides : List Nat) : Nat :=
  (List.zipWith (fun i st => i * st) idxs strides).sum

/-- Modelled from the spec: the multi-index that has the linear index `g` under a stride set of
`shape`. -/
def multiIndex (strides shape : List Nat) (g : Nat) : List Nat :=
  List.zipWith (fun st n => (g / st) % n) strides shape

/-- Modelled from the spec: the generalized transpose of §4.1, "compute strides for each layout
and copy element-by-element from the source linear index (stride set A) to the destination linear
index (stride set B)".  Every multi-index of `shape` is visited once, in the order of its
destination index; the element written there is the one at its source index. -/
def relayout (src dst shape : List Nat) (a : List α) : List α :=
  (List.range (flatSize shape)).map
    (fun p => a.getD (linearIndex (multiIndex dst shape p) src) default)

/-- Modelled from the spec: `Tensor::transformLeftToRightLayout()`, the §4.1 conversion of a
left-layout tensor: a new tensor of the same shape, right layout tag, transposed data. -/
def Tensor.transformLeftToRightLayout (t : Tensor α) : Tensor α :=
  { shape := t.shape
    data := relayout (stridesLeft t.shape) (stridesRight t.shape) t.shape t.data
    isRight := true }

/-- Modelled from the spec: `Tensor::transformRightToLeftLayout()`, the §4.1 conversion of a
right-layout tensor. -/
def Tensor.transformRightToLeftLayout (t : Tensor α) : Tensor α :=
  { shape := t.shape
    data := relayout (stridesRight t.shape) (stridesLeft t.shape) t.shape t.data
    isRight := false }

/-- Modelled from the spec: `Tensor::toLeftLayout()`, the in-place conversion to the left layout
(nothing to do for a tensor that already has it). -/
def Tensor.toLeftLayout (t : Tensor α) : Tensor α :=
  if t.isRight then t.transformRightToLeftLayout else t

/-- Every index of the tuple is below the matching dimension. -/
def InBounds (idxs shape : List Nat) : Prop := List.Forall₂ (fun i n => i < n) idxs shape

/-! ## Engine values -/

/-- An `Ort::Value` as far as the model layer looks at it: `IsTensor()`, the `int64_t` shape of
`GetTensorTypeAndShapeInfo().GetShape()` and the floats behind `GetTensorData<float>()`.  A
value made by `CreateTensor` does not own these floats: `GetTensorData` is what the wrapped
buffer holds for as long as that buffer is alive, and reading the value after the buffer has
been destroyed is a use after free. -/
structure OrtValue (α : Type) where
  IsTensor : Bool
  GetShape : List Int
  GetTensorData : List α
deriving DecidableEq, Repr

/-- The call `Ort::Value::CreateTensor<float>(memory_info, p_data, p_data_element_count, shape,
shape_len)`: a tensor value that wraps, without copying, the first `p_data_element_count`
floats at `p_data`.  Every caller below leaves the buffer unchanged between this call and
`Run`, so until the buffer is destroyed the value shows these floats. -/
def OrtValue.CreateTensor (p_data : List α) (p_data_element_count : Nat) (shape : List Int) :
    OrtValue α :=
  { IsTensor := true, GetShape := shape, GetTensorData := p_data.take p_data_element_count }

/-- The value `GetTensorTypeAndShapeInfo().GetElementCount()`: number of floats of the value. -/
def OrtValue.GetElementCount (v : OrtValue α) : Nat := v.GetTensorData.length

/-- A `TfLiteTensor` of the interpreter: `dims` (C `int`s) and the float buffer. -/
structure TfLiteTensor (α : Type) where
  dims : List Int
  data : List α
deriving DecidableEq, Repr

/-! ## The model objects -/

/-- The base class `InferenceModel` (`InferenceModel.h` 29-62): its only data member besides the
buffer pointer is the private flag `isOpen_`. -/
structure InferenceModel where
  isOpen_ : Bool
deriving DecidableEq, Repr

/-- Modelled from the spec: `InferenceModel::InferenceModel(conf)` is declared in
`InferenceModel.h` but defined in a file that is not among the sources.  Spec §3: the initial
state is `Closed`. -/
def InferenceModel.construct : InferenceModel := { isOpen_ := false }

/-- Modelled from the spec: `InferenceModel::open()` is declared in `InferenceModel.h` but
defined in a file that is not among the sources.  Spec §4.3: `Closed → Open`; calling it on an
already-open instance fails. -/
def InferenceModel.open (m : InferenceModel) : Status × InferenceModel :=
  if m.isOpen_ then (.threw, m) else (.returned, { isOpen_ := true })

/-- Modelled from the spec: `InferenceModel::close()` is declared in `InferenceModel.h` but
defined in a file that is not among the sources.  Spec §4.3: `Open → Closed`; a no-op on a
closed instance. -/
def InferenceModel.close (_m : InferenceModel) : Status × InferenceModel :=
  (.returned, { isOpen_ := false })

/-- The members of `InferenceModelONNX` that `infer` and `infer_mimo` use.  `session` is
`Ort::Session::Run` on (input names, input values, output names); `none` stands for an
exception thrown by the engine.  `inputTensors` is written by `infer_mimo` alone: a value it
holds when a call starts was appended by an earlier call and wraps a buffer of that call's local
`itensors`, which was destroyed when that call ended. -/
structure InferenceModelONNX (α : Type) extends InferenceModel where
  inputNames : List String
  outputNames : List String
  numInputs : Nat
  numOutputs : Nat
  inputTensors : List (OrtValue α)
  session : List String → List (OrtValue α) → List String → Option (List (OrtValue α))

/-- The members of `InferenceModelTFlite` that `infer` and `infer_mimo` use: the input and
output tensors of `interpreter_`, and `kernel`, what `Invoke()` computes from the input
tensors (`none` when its status is not `kTfLiteOk`). -/
structure InferenceModelTFlite (α : Type) extends InferenceModel where
  inputs : List (TfLiteTensor α)
  outputs : List (TfLiteTensor α)
  kernel : List (TfLiteTensor α) → Option (List (TfLiteTensor α))

/-- The tensor objects of the caller, addressed by the pointers (indices) that `infer_mimo`
receives in `std::vector<TensorFloat*>`. -/
abbrev Heap (α : Type) := List (Tensor α)

/-! ## InferenceModelONNX -/

/-- The function `InferenceModelONNX::infer(tIn, tOut, ...)` (`InferenceModelONNX.cc` 74-124).
Result: the status and the caller's `tIn` and `tOut` after the call (two distinct objects).
`&input_tensor` is an array of one value from which `Run` reads `numInputs` values. -/
def InferenceModelONNX.infer (m : InferenceModelONNX α) (tIn tOut : Tensor α) :
    Status × Tensor α × Tensor α :=
  -- ASSERT(inputNames.size() == 1); ASSERT(outputNames.size() == 1);
  if m.inputNames.length ≠ 1 then (.threw, tIn, tOut)
  else if m.outputNames.length ≠ 1 then (.threw, tIn, tOut)
  else
    -- if (tIn.isRight()) tIn.toLeftLayout();
    let tIn1 := if tIn.isRight then tIn.toLeftLayout else tIn
    let shape_64 := convert_shape sizeToInt64 tIn1.shape
    let input_tensor := OrtValue.CreateTensor tIn1.data tIn1.size shape_64
    -- ASSERT(input_tensor.IsTensor());
    if input_tensor.IsTensor = false then (.threw, tIn1, tOut)
    else
      match readArray m.inputNames m.numInputs, readArray [input_tensor] m.numInputs,
          readArray m.outputNames m.numOutputs with
      | some inNames, some ins, some outNames =>
        match m.session inNames ins outNames with
        | none => (.threw, tIn1, tOut)
        | some output_tensors =>
          -- ASSERT(output_tensors.size() == 1 && output_tensors.front().IsTensor());
          match output_tensors with
          | [front] =>
            if front.IsTensor = false then (.threw, tIn1, tOut)
            else if tOut.isRight then
              -- TensorFloat tLeft(data, convert_shape<int64_t, size_t>(out_shape), false);
              let tLeft : Tensor α :=
                { shape := convert_shape toSizeT front.GetShape
                  data := front.GetTensorData
                  isRight := false }
              -- tOut = tLeft.transformLeftToRightLayout();
              (.returned, tIn1, tLeft.transformLeftToRightLayout)
            else
              -- memcpy(tOut.data(), GetTensorData<float>(), GetElementCount() * sizeof(float));
              match memcpy tOut.data front.GetTensorData front.GetElementCount with
              | some d => (.returned, tIn1, { tOut with data := d })
              | none => (.undefined, tIn1, tOut)
          | _ => (.threw, tIn1, tOut)
      | _, _, _ => (.undefined, tIn1, tOut)

/-- Lines 133-136 of `infer_mimo`: `itensors[i] = *tIn[i]` for every `i < tIn.size()`, a deep
copy of each caller tensor (`none`: a pointer that addresses no tensor). -/
def copyTensors (heap : Heap α) : List Nat → Option (List (Tensor α))
  | [] => some []
  | p :: ps =>
    match heap[p]?, copyTensors heap ps with
    | some t, some ts => some (t :: ts)
    | _, _ => none

/-- Lines 140-158 of `infer_mimo`: the input loop, `k` iterations starting at index `i`, over
the working copies `itensors`; each iteration may convert the copy to the left layout and
appends one value to the member `inputTensors`.  `none`: `itensors[i]` is out of range. -/
def InferenceModelONNX.inputLoop (itensors : List (Tensor α)) :
    Nat → Nat → List (OrtValue α) → Option (List (OrtValue α))
  | 0, _, inputTensors => some inputTensors
  | k + 1, i, inputTensors =>
    match itensors[i]? with
    | none => none
    | some t =>
      let t1 := if t.isRight then t.toLeftLayout else t
      let shape_64 := convert_shape sizeToInt64 t1.shape
      let input_tensor := OrtValue.CreateTensor t1.data t1.size shape_64
      -- ASSERT(input_tensor.IsTensor()) passes: CreateTensor yields a tensor value
      InferenceModelONNX.inputLoop itensors k (i + 1) (inputTensors ++ [input_tensor])

/-- Lines 170-190 of `infer_mimo`: the output loop, `k` iterations starting at index `i`,
writing through the pointers `tOut[i]` into the caller's tensors. -/
def InferenceModelONNX.outputLoop (output_tensors : List (OrtValue α)) (tOut : List Nat) :
    Nat → Nat → Heap α → Status × Heap α
  | 0, _, heap => (.returned, heap)
  | k + 1, i, heap =>
    match output_tensors[i]? with
    | none => (.undefined, heap)
    | some o =>
      -- ASSERT(output_tensors[i].IsTensor());
      if o.IsTensor = false then (.threw, heap)
      else
        match tOut[i]? with
        | none => (.undefined, heap)
        | some p =>
          match heap[p]? with
          | none => (.undefined, heap)
          | some t =>
            if t.isRight then
              let tLeft : Tensor α :=
                { shape := convert_shape toSizeT o.GetShape
                  data := o.GetTensorData
                  isRight := false }
              InferenceModelONNX.outputLoop output_tensors tOut k (i + 1)
                (heap.set p tLeft.transformLeftToRightLayout)
            else
              match memcpy t.data o.GetTensorData o.GetElementCount with
              | some d =>
                InferenceModelONNX.outputLoop output_tensors tOut k (i + 1)
                  (heap.set p { t with data := d })
              | none => (.undefined, heap)

/-- The function `InferenceModelONNX::infer_mimo(tIn, input_names, tOut, output_names)`
(`InferenceModelONNX.cc` 126-192).  `tIn` and `tOut` are vectors of pointers into `heap`.
Result: the status, the model (its member `inputTensors` grows) and the caller's tensors.  The
local `itensors` is destroyed when the call ends, so the values left in `inputTensors` dangle
from then on. -/
def InferenceModelONNX.infer_mimo (m : InferenceModelONNX α) (heap : Heap α)
    (tIn : List Nat) (input_names : List String) (tOut : List Nat)
    (_output_names : List String) : Status × InferenceModelONNX α × Heap α :=
  match copyTensors heap tIn with
  | none => (.undefined, m, heap)
  | some itensors =>
    let NInputs := input_names.length
    match InferenceModelONNX.inputLoop itensors NInputs 0 m.inputTensors with
    | none => (.undefined, m, heap)
    | some inputTensors =>
      let m1 : InferenceModelONNX α := { m with inputTensors := inputTensors }
      match readArray m1.inputNames m1.numInputs, readArray m1.inputTensors m1.numInputs,
          readArray m1.outputNames m1.numOutputs with
      | some inNames, some ins, some outNames =>
        -- Run reads the floats of the first numInputs values of inputTensors; a value that
        -- was there when the call started wraps a destroyed buffer (use after free)
        if 0 < m.inputTensors.length ∧ 0 < m1.numInputs then (.undefined, m1, heap)
        else
          match m1.session inNames ins outNames with
          | none => (.threw, m1, heap)
          | some output_tensors =>
            -- ASSERT(output_tensors.size() == numOutputs);
            if output_tensors.length ≠ m1.numOutputs then (.threw, m1, heap)
            else
              let r := InferenceModelONNX.outputLoop output_tensors tOut m1.numOutputs 0 heap
              (r.1, m1, r.2)
      | _, _, _ => (.undefined, m1, heap)

/-! ## InferenceModelTFlite -/

/-- The calls `ResizeInputTensor(inputs()[i], dims)` and `memcpy(typed_input_tensor<float>(i),
src, n * sizeof(float))`: input tensor `i` of the interpreter takes the dimensions `dims` and
the first `n` floats of `src`.  `none`: the interpreter has no input `i`, or `src` holds fewer
than `n` floats.  (The capacity of the interpreter's own buffer is not modelled.) -/
def InferenceModelTFlite.setInput (m : InferenceModelTFlite α) (i : Nat) (dims : List Int)
    (src : List α) (n : Nat) : Option (InferenceModelTFlite α) :=
  match m.inputs[i]?, readArray src n with
  | some _, some d => some { m with inputs := m.inputs.set i { dims := dims, data := d } }
  | _, _ => none

/-- The call `interpreter_->Invoke()`: on `kTfLiteOk` the output tensors hold what the kernel
computes from the input tensors. -/
def InferenceModelTFlite.Invoke (m : InferenceModelTFlite α) : Option (InferenceModelTFlite α) :=
  match m.kernel m.inputs with
  | some outs => some { m with outputs := outs }
  | none => none

/-- Lines 109-114 of `InferenceModelTFlite::infer`: `size_t out_size = 1;` then
`out_size *= out_shape[i]` for every dimension, in 64-bit unsigned arithmetic. -/
def out_size (out_shape : List Nat) : Nat :=
  out_shape.foldl (fun acc d => acc * d % 2 ^ 64) 1

/-- The function `InferenceModelTFlite::infer(tIn, tOut, ...)` (`InferenceModelTFlite.cc`
68-135).  Result: the status, the model (its interpreter state) and the caller's `tIn` and
`tOut` after the call (two distinct objects). -/
def InferenceModelTFlite.infer (m : InferenceModelTFlite α) (tIn tOut : Tensor α) :
    Status × InferenceModelTFlite α × Tensor α × Tensor α :=
  -- if (tIn.isRight()) tIn.toLeftLayout();
  let tIn1 := if tIn.isRight then tIn.toLeftLayout else tIn
  -- sh_[i] = tIn.shape()[i];
  let sh_ := tIn1.shape.map sizeToInt
  match m.setInput 0 sh_ tIn1.data tIn1.size with
  | none => (.undefined, m, tIn1, tOut)
  | some m1 =>
    -- INFERO_CHECK(interpreter_->Invoke() == kTfLiteOk);
    match m1.Invoke with
    | none => (.threw, m1, tIn1, tOut)
    | some m2 =>
      match m2.outputs[0]? with
      | none => (.undefined, m2, tIn1, tOut)
      | some out =>
        -- out_shape[i] = out->dims->data[i];
        let out_shape := out.dims.map toSizeT
        -- ASSERT(tOut.shape() == out_shape);
        if tOut.shape ≠ out_shape then (.threw, m2, tIn1, tOut)
        else if tOut.isRight then
          -- TensorFloat tLeft(output, out_shape, false);
          let tLeft : Tensor α := { shape := out_shape, data := out.data, isRight := false }
          (.returned, m2, tIn1, tLeft.transformLeftToRightLayout)
        else
          -- memcpy(tOut.data(), output, out_size * sizeof(float));
          match memcpy tOut.data out.data (out_size out_shape) with
          | some d => (.returned, m2, tIn1, { tOut with data := d })
          | none => (.undefined, m2, tIn1, tOut)

/-- Lines 143-161 of `InferenceModelTFlite::infer_mimo`: the input loop, `k` iterations
starting at index `i`.  `tIn[i]->toLeftLayout()` acts on the caller's tensor itself. -/
def InferenceModelTFlite.inputLoop (tIn : List Nat) :
    Nat → Nat → InferenceModelTFlite α → Heap α → Status × InferenceModelTFlite α × Heap α
  | 0, _, m, heap => (.returned, m, heap)
  | k + 1, i, m, heap =>
    -- interpreter_->input_tensor(i)->name
    match m.inputs[i]? with
    | none => (.undefined, m, heap)
    | some _ =>
      match tIn[i]? with
      | none => (.undefined, m, heap)
      | some p =>
        match heap[p]? with
        | none => (.undefined, m, heap)
        | some t =>
          -- if (tIn[i]->isRight()) tIn[i]->toLeftLayout();
          let t1 := if t.isRight then t.toLeftLayout else t
          let heap1 := heap.set p t1
          match m.setInput i (convert_shape sizeToInt t1.shape) t1.data t1.size with
          | none => (.undefined, m, heap1)
          | some m1 => InferenceModelTFlite.inputLoop tIn k (i + 1) m1 heap1

/-- Lines 169-188 of `InferenceModelTFlite::infer_mimo`: the output loop, `k` iterations
starting at index `i`; the engine's buffer is read under the caller's shape. -/
def InferenceModelTFlite.outputLoop (m : InferenceModelTFlite α) (tOut : List Nat) :
    Nat → Nat → Heap α → Status × Heap α
  | 0, _, heap => (.returned, heap)
  | k + 1, i, heap =>
    -- interpreter_->output_tensor(i)->name; typed_output_tensor<float>(i)
    match m.outputs[i]? with
    | none => (.undefined, heap)
    | some out =>
      match tOut[i]? with
      | none => (.undefined, heap)
      | some p =>
        match heap[p]? with
        | none => (.undefined, heap)
        | some t =>
          if t.isRight then
            -- TensorFloat tLeft(output, tOut[i]->shape(), false);
            let tLeft : Tensor α := { shape := t.shape, data := out.data, isRight := false }
            InferenceModelTFlite.outputLoop m tOut k (i + 1)
              (heap.set p tLeft.transformLeftToRightLayout)
          else
            -- memcpy(tOut[i]->data(), output, tOut[i]->size() * sizeof(float));
            match memcpy t.data out.data t.size with
            | some d =>
              InferenceModelTFlite.outputLoop m tOut k (i + 1) (heap.set p { t with data := d })
            | none => (.undefined, heap)

/-- The function `InferenceModelTFlite::infer_mimo(tIn, input_names, tOut, output_names)`
(`InferenceModelTFlite.cc` 137-189).  `tIn` and `tOut` are vectors of pointers into `heap`. -/
def InferenceModelTFlite.infer_mimo (m : InferenceModelTFlite α) (heap : Heap α)
    (tIn : List Nat) (input_names : List String) (tOut : List Nat)
    (output_names : List String) : Status × InferenceModelTFlite α × Heap α :=
  let NInputs := input_names.length
  match InferenceModelTFlite.inputLoop tIn NInputs 0 m heap with
  | (.returned, m1, heap1) =>
    -- INFERO_CHECK(interpreter_->Invoke() == kTfLiteOk);
    match m1.Invoke with
    | none => (.threw, m1, heap1)
    | some m2 =>
      let NOutputs := output_names.length
      let r := InferenceModelTFlite.outputLoop m2 tOut NOutputs 0 heap1
      (r.1, m2, r.2)
  | r => r

/-! ## InferenceModelBuffer -/

/-- One `char`. -/
abbrev Byte := Fin 256

/-- One `char` of allocated storage: `none` while it has never been written since `new[]`
(its value is indeterminate). -/
abbrev Cell := Option Byte

/-- The `char` arrays of the free store; a `char*` is the index of its array. -/
abbrev Memory := List (List Cell)

/-- The expression `new char[n]`: a fresh array of `n` indeterminate cells, and its address. -/
def Memory.alloc (mem : Memory) (n : Nat) : Memory × Nat :=
  (mem ++ [List.replicate n none], mem.length)

/-- The call `memcpy(dst, src, n)` between two arrays of the free store (`none`: an address that
is no array, or `n` exceeds one of the arrays). -/
def Memory.memcpy (mem : Memory) (dst src n : Nat) : Option Memory :=
  match mem[dst]?, mem[src]? with
  | some d, some s =>
    match Infero.memcpy d s n with
    | some d1 => some (mem.set dst d1)
    | none => none
  | _, _ => none

/-- The statement `delete [] p`: the array at `p` is gone. -/
def Memory.delete (mem : Memory) (p : Nat) : Memory := mem.set p []

/-- A later assignment `p[off] = v` by whoever owns the array at `p`. -/
def Memory.store (mem : Memory) (p off : Nat) (v : Byte) : Memory :=
  match mem[p]? with
  | some a => mem.set p (a.set off (some v))
  | none => mem

/-- What `std::ifstream file(path, std::ios::binary | std::ios::ate)` finds at a path: nothing,
or a file with its bytes; `readable = false` is a file whose `read` fails. -/
inductive FileOnDisk where
  | missing
  | present (bytes : List Byte) (readable : Bool)
deriving DecidableEq, Repr

/-- The value of `file.tellg()` right after opening at the end: the size of the file, `-1` when the
stream failed to open. -/
def FileOnDisk.tellg : FileOnDisk → Int
  | .missing => -1
  | .present bytes _ => (bytes.length : Int)

/-- The call `file.read(buffer, size)` after `seekg(0)`: on success the `size` bytes of the file;
`none` when the stream is not good afterwards. -/
def FileOnDisk.read : FileOnDisk → Nat → Option (List Byte)
  | .missing, _ => none
  | .present bytes readable, size =>
    if readable ∧ size ≤ bytes.length then some (bytes.take size) else none

/-- The data members of `InferenceModelBuffer`: `data_` (address of the owned array) and
`dataSize_`. -/
structure InferenceModelBuffer where
  data_ : Nat
  dataSize_ : Nat
deriving DecidableEq, Repr

/-- The accessor `InferenceModelBuffer::size()`. -/
def InferenceModelBuffer.size (b : InferenceModelBuffer) : Nat := b.dataSize_

/-- The `size()` cells behind `InferenceModelBuffer::data()`. -/
def InferenceModelBuffer.contents (mem : Memory) (b : InferenceModelBuffer) : List Cell :=
  (mem.getD b.data_ []).take b.size

/-- The constructor `InferenceModelBuffer(char* data, size_t dataSize)` (`InferenceModel.h`
69-76): `ASSERT(dataSize_ >= 0)` cannot fail for a `size_t`; then `data_ = new char[dataSize_]`
and `memcpy(data_, data, dataSize)`.  `none`: the `memcpy` reads past the array at `data`. -/
def InferenceModelBuffer.construct (mem : Memory) (data dataSize : Nat) :
    Option (Memory × InferenceModelBuffer) :=
  let a := mem.alloc dataSize
  match a.1.memcpy a.2 data dataSize with
  | some mem1 => some (mem1, { data_ := a.2, dataSize_ := dataSize })
  | none => none

/-- The function `InferenceModelBuffer::from_path(path)` (`InferenceModel.h` 82-106) on the file
system `fs`.  Result: the status, the free store afterwards and the returned buffer. -/
def InferenceModelBuffer.from_path (fs : String → FileOnDisk) (mem : Memory) (path : String) :
    Status × Memory × Option InferenceModelBuffer :=
  let file := fs path
  let size := file.tellg
  -- if (size <= 0) throw eckit::FailedSystemCall(...);
  if size ≤ 0 then (.threw, mem, none)
  else
    -- char* buffer = new char[ static_cast<size_t>(size) ];   (size > 0 converts unchanged)
    let a := mem.alloc size.toNat
    let buffer := a.2
    -- if (file.read(buffer, size)) { Log::info() ... }     (no else branch)
    let mem1 :=
      match file.read size.toNat with
      | some bytes => a.1.set buffer (bytes.map some)
      | none => a.1
    -- new InferenceModelBuffer(buffer, static_cast<size_t>(size))
    match InferenceModelBuffer.construct mem1 buffer size.toNat with
    | none => (.undefined, mem1, none)
    | some r =>
      -- delete [] buffer; return modelBuffr;
      (.returned, r.1.delete buffer, some r.2)

/-! ## The engine's output in the single-IO calls -/

/-- Lines 77-105 of `InferenceModelONNX::infer` read on their own: the one tensor value that
`session->Run` hands back for the caller's `tIn`, when both the assertions on the names and the
assertion on the outputs pass. -/
def InferenceModelONNX.engineOutput (m : InferenceModelONNX α) (tIn : Tensor α) :
    Option (OrtValue α) :=
  if m.inputNames.length ≠ 1 then none
  else if m.outputNames.length ≠ 1 then none
  else
    let tIn1 := if tIn.isRight then tIn.toLeftLayout else tIn
    let shape_64 := convert_shape sizeToInt64 tIn1.shape
    let input_tensor := OrtValue.CreateTensor tIn1.data tIn1.size shape_64
    match readArray m.inputNames m.numInputs, readArray [input_tensor] m.numInputs,
        readArray m.outputNames m.numOutputs with
    | some inNames, some ins, some outNames =>
      match m.session inNames ins outNames with
      | some [front] => if front.IsTensor then some front else none
      | _ => none
    | _, _, _ => none

/-- Lines 71-107 of `InferenceModelTFlite::infer` read on their own: output tensor 0 of the
interpreter after a successful `Invoke()` on the caller's `tIn`. -/
def InferenceModelTFlite.engineOutput (m : InferenceModelTFlite α) (tIn : Tensor α) :
    Option (TfLiteTensor α) :=
  let tIn1 := if tIn.isRight then tIn.toLeftLayout else tIn
  match m.setInput 0 (tIn1.shape.map sizeToInt) tIn1.data tIn1.size with
  | none => none
  | some m1 =>
    match m1.Invoke with
    | none => none
    | some m2 => m2.outputs[0]?

/-! ## MLEngineONNX -/

/-- The members of `MLEngineONNX` that `infer` uses (`MLEngineONNX.cc`): the node names and
counts set up by `query_input_layer` and `query_output_layer`, the member `data_buffer`, and
`session`, which is `Ort::Session::Run` (`none`: the engine throws). -/
structure MLEngineONNX (α : Type) where
  input_node_names : List String
  output_node_names : List String
  num_input_nodes : Nat
  num_output_nodes : Nat
  data_buffer : List α
  session : List String → List (OrtValue α) → List String → Option (List (OrtValue α))

/-- Lines 72-76 of `MLEngineONNX::infer`: `int out_size = 1;` then `out_size *= i` for every
`int64_t` dimension `i`; each product is converted back to the 32-bit `int`. -/
def MLEngineONNX.out_size (shape : List Int) : Int :=
  shape.foldl (fun out_size i => toInt32 (toInt64 (out_size * i))) 1

/-- Lines 86-91 of `MLEngineONNX::infer`: `*(pred_ptr->data() + i) = *(floatarr + i)` for the
`n` indices below `out_size`.  A cell of the fresh tensor that is never assigned stays `none`
(indeterminate).  Result `none`: an index beyond one of the two arrays. -/
def MLEngineONNX.copyOut (pred : List (Option α)) (floatarr : List α) (n : Nat) :
    Option (List (Option α)) :=
  memcpy pred (floatarr.map some) n

/-- The function `MLEngineONNX::infer(input_sample)` (`MLEngineONNX.cc` 44-94).  Result: the
status, the engine (its member `data_buffer`) and the returned tensor, whose cells are `some`
float once assigned and `none` while indeterminate. -/
def MLEngineONNX.infer (e : MLEngineONNX α) (input_sample : Tensor α) :
    Status × MLEngineONNX α × Option (Tensor (Option α)) :=
  -- data_buffer.resize(size); data_buffer[i] = input_sample->data()[i];
  match readArray input_sample.data input_sample.size with
  | none => (.undefined, e, none)
  | some data_buffer =>
    let e1 : MLEngineONNX α := { e with data_buffer := data_buffer }
    let shape_64 := convert_shape sizeToInt64 input_sample.shape
    let input_tensor := OrtValue.CreateTensor e1.data_buffer input_sample.size shape_64
    -- ASSERT(input_tensor.IsTensor());
    if input_tensor.IsTensor = false then (.threw, e1, none)
    else
      match readArray e1.input_node_names e1.num_input_nodes,
          readArray [input_tensor] e1.num_input_nodes,
          readArray e1.output_node_names e1.num_output_nodes with
      | some inNames, some ins, some outNames =>
        match e1.session inNames ins outNames with
        | none => (.threw, e1, none)
        | some output_tensors =>
          -- ASSERT(output_tensors.size() == 1 && output_tensors.front().IsTensor());
          match output_tensors with
          | [front] =>
            if front.IsTensor = false then (.threw, e1, none)
            else
              let out_size := MLEngineONNX.out_size front.GetShape
              let shape_ := convert_shape toSizeT front.GetShape
              -- new infero::MLTensor(shape_, false): owned storage, not initialised
              let pred : Tensor (Option α) :=
                { shape := shape_
                  data := List.replicate (flatSize shape_) none
                  isRight := false }
              -- std::vector<float> output_data(out_size): a negative int converts to a
              -- size_t above max_size(), and the constructor throws std::length_error
              if out_size < 0 then (.threw, e1, none)
              else
                -- for (size_t i = 0; i < out_size; i++)
                match MLEngineONNX.copyOut pred.data front.GetTensorData (toSizeT out_size) with
                | some d => (.returned, e1, some { pred with data := d })
                | none => (.undefined, e1, none)
          | _ => (.threw, e1, none)
      | _, _, _ => (.undefined, e1, none)

/-! ## Concrete engines and inputs used in the examples -/

/-- An ONNX model with one input and one output whose session returns the value `out`. -/
def constONNX (out : OrtValue Nat) : InferenceModelONNX Nat :=
  { isOpen_ := true
    inputNames := ["in"]
    outputNames := ["out"]
    numInputs := 1
    numOutputs := 1
    inputTensors := []
    session := fun _ _ _ => some [out] }

/-- A TFlite model with one input and one output whose kernel returns the tensor `out`. -/
def constTFlite (out : TfLiteTensor Nat) : InferenceModelTFlite Nat :=
  { isOpen_ := true
    inputs := [{ dims := [], data := [] }]
    outputs := [{ dims := [], data := [] }]
    kernel := fun _ => some [out] }

/-- An engine output of shape `[3,5]`. -/
def ortOut35 : OrtValue Nat :=
  { IsTensor := true
    GetShape := [3, 5]
    GetTensorData := [1, 2, 3, 4, 5, 6, 7, 8, 9, 10, 11, 12, 13, 14, 15] }

/-- An engine output of shape `[3,4]`. -/
def ortOut34 : OrtValue Nat :=
  { IsTensor := true
    GetShape := [3, 4]
    GetTensorData := [1, 2, 3, 4, 5, 6, 7, 8, 9, 10, 11, 12] }

/-- An interpreter output of shape `[3,5]`. -/
def tfOut35 : TfLiteTensor Nat :=
  { dims := [3, 5], data := [1, 2, 3, 4, 5, 6, 7, 8, 9, 10, 11, 12, 13, 14, 15] }

/-- A caller output tensor of shape `[3,4]` holding zeros, in the given layout. -/
def callerOut34 (isRight : Bool) : Tensor Nat :=
  { shape := [3, 4], data := List.replicate 12 0, isRight := isRight }

/-- A caller output tensor of shape `[3,5]` holding zeros, in the given layout. -/
def callerOut35 (isRight : Bool) : Tensor Nat :=
  { shape := [3, 5], data := List.replicate 15 0, isRight := isRight }

/-- An ONNX model with one input and one output whose session returns its inputs. -/
def echoONNX : InferenceModelONNX Nat :=
  { isOpen_ := true
    inputNames := ["in"]
    outputNames := ["out"]
    numInputs := 1
    numOutputs := 1
    inputTensors := []
    session := fun _ ins _ => some ins }

/-- A TFlite model with one input and one output whose kernel returns its inputs. -/
def echoTFlite : InferenceModelTFlite Nat :=
  { isOpen_ := true
    inputs := [{ dims := [], data := [] }]
    outputs := [{ dims := [], data := [] }]
    kernel := fun ins => some ins }

/-- A right-layout (column-major) tensor of shape `[2,3]`. -/
def rightTensor23 : Tensor Nat := { shape := [2, 3], data := [1, 2, 3, 4, 5, 6], isRight := true }

/-- A left-layout tensor of shape `[2,3]`. -/
def leftTensor23 : Tensor Nat := { shape := [2, 3], data := [0, 0, 0, 0, 0, 0], isRight := false }

/-- A file system whose only content is a three-byte file that cannot be read. -/
def unreadableFs : String → FileOnDisk := fun _ => .present [1, 2, 3] false

/-- A file system with a readable three-byte file at every path. -/
def readableFs : String → FileOnDisk := fun _ => .present [7, 8, 9] true

/-- A file system with no file at `"absent"` and an empty file everywhere else. -/
def emptyFs : String → FileOnDisk :=
  fun path => if path = "absent" then .missing else .present [] true

/-- A left-layout tensor of rank 3, shape `[2,3,2]`. -/
def leftTensor232 : Tensor Nat :=
  { shape := [2, 3, 2], data := [1, 2, 3, 4, 5, 6, 7, 8, 9, 10, 11, 12], isRight := false }

/-- A right-layout caller output tensor of shape `[2,3]` holding zeros. -/
def rightOut23 : Tensor Nat := { shape := [2, 3], data := [0, 0, 0, 0, 0, 0], isRight := true }

/-- The echo model right after construction: never opened. -/
def closedEcho : InferenceModelONNX Nat :=
  { echoONNX with toInferenceModel := InferenceModel.construct }

/-- The echo model after construction, `open()` and `close()`. -/
def reclosedEcho : InferenceModelONNX Nat :=
  { echoONNX with
    toInferenceModel := (InferenceModel.close (InferenceModel.open InferenceModel.construct).2).2 }

/-- An ONNX model that declares two inputs and one output; its session returns its first
input. -/
def twoInputONNX : InferenceModelONNX Nat :=
  { isOpen_ := true
    inputNames := ["a", "b"]
    outputNames := ["out"]
    numInputs := 2
    numOutputs := 1
    inputTensors := []
    session := fun _ ins _ => some (ins.take 1) }

/-- A second left-layout input tensor of shape `[2,3]`. -/
def otherTensor23 : Tensor Nat :=
  { shape := [2, 3], data := [10, 20, 30, 40, 50, 60], isRight := false }

/-- An `MLEngineONNX` with one input and one output node whose session returns `out`. -/
def constEngine (out : OrtValue Nat) : MLEngineONNX Nat :=
  { input_node_names := ["in"]
    output_node_names := ["out"]
    num_input_nodes := 1
    num_output_nodes := 1
    data_buffer := []
    session := fun _ _ _ => some [out] }

/-- An engine output value of the given shape over the floats `floatarr`. -/
def ortOutOf (shape : List Int) (floatarr : List Nat) : OrtValue Nat :=
  { IsTensor := true, GetShape := shape, GetTensorData := floatarr }

/-! ## Lemmas on the caller's heap -/

theorem mem_of_getElem?_eq_some {β : Type} (xs : List β) (i : Nat) (x : β)
    (h : xs[i]? = some x) : x ∈ xs := by
  rw [List.getElem?_eq_some] at h
  obtain ⟨hi, rfl⟩ := h
  exact List.getElem_mem hi

theorem onnx_outputLoop_frame (output_tensors : List (OrtValue α)) (tOut : List Nat) (p : Nat)
    (hp : p ∉ tOut) : ∀ (k i : Nat) (heap : Heap α),
    (InferenceModelONNX.outputLoop output_tensors tOut k i heap).2[p]? = heap[p]? := by
  intro k
  induction k with
  | zero => intro i heap; rfl
  | succ k ih =>
    intro i heap
    unfold InferenceModelONNX.outputLoop
    split
    · rfl
    · split
      · rfl
      · split
        · rfl
        · rename_i q hq
          have hne : q ≠ p := fun h => hp (h ▸ mem_of_getElem?_eq_some _ _ _ hq)
          split
          · rfl
          · split
            · rw [ih, List.getElem?_set_ne hne]
            · split
              · rw [ih, List.getElem?_set_ne hne]
              · rfl

/-! ## C1 -/

/-- C1. `InferenceModelONNX::infer_mimo` is copy-on-input: whatever the tensors, names, engine
and outcome of the call, every caller tensor passed as an input (and not also as an output) is
afterwards the same object as before: same layout tag, shape and element values.  The layout
conversion acts on the working copies only. -/
theorem onnx_infer_mimo_copy_on_input (m : InferenceModelONNX α) (heap : Heap α)
    (tIn : List Nat) (input_names : List String) (tOut : List Nat) (output_names : List String)
    (p : Nat) (_hin : p ∈ tIn) (hout : p ∉ tOut) :
    (m.infer_mimo heap tIn input_names tOut output_names).2.2[p]? = heap[p]? := by
  unfold InferenceModelONNX.infer_mimo
  split
  · rfl
  · dsimp only
    split
    · rfl
    · split
      · split
        · rfl
        · split
          · rfl
          · split
            · rfl
            · exact onnx_outputLoop_frame _ _ _ hout _ _ _
      · rfl

/-- C1 at a right-layout `[2,3]` input that needs conversion: the call returns, the engine
was handed the converted data, and the caller's input tensor is untouched. -/
theorem onnx_infer_mimo_copy_on_input_witness :
    (echoONNX.infer_mimo [rightTensor23, leftTensor23] [0] ["in"] [1] ["out"]).1 = Status.returned
    ∧ (echoONNX.infer_mimo [rightTensor23, leftTensor23] [0] ["in"] [1] ["out"]).2.1.inputTensors
        = [{ IsTensor := true, GetShape := [2, 3], GetTensorData := [1, 3, 5, 2, 4, 6] }]
    ∧ (echoONNX.infer_mimo [rightTensor23, leftTensor23] [0] ["in"] [1] ["out"]).2.2[0]?
        = some rightTensor23 :=
  ⟨by decide, by decide,
    onnx_infer_mimo_copy_on_input echoONNX [rightTensor23, leftTensor23] [0] ["in"] [1] ["out"] 0
      (by decide) (by decide)⟩

/-! ## C2 -/

/-- C2. `InferenceModelTFlite::infer_mimo` is not copy-on-input: on a right-layout `[2,3]` input
the call returns and the caller's input tensor itself has become a left-layout tensor with
transposed data (`tIn[i]->toLeftLayout()` acts on the caller's object). -/
theorem tflite_infer_mimo_mutates_input :
    (echoTFlite.infer_mimo [rightTensor23, leftTensor23] [0] ["in"] [1] ["out"]).1 = Status.returned
    ∧ (echoTFlite.infer_mimo [rightTensor23, leftTensor23] [0] ["in"] [1] ["out"]).2.2[0]?
        = some { shape := [2, 3], data := [1, 3, 5, 2, 4, 6], isRight := false }
    ∧ (echoTFlite.infer_mimo [rightTensor23, leftTensor23] [0] ["in"] [1] ["out"]).2.2[0]?
        ≠ some rightTensor23 := by
  decide

/-! ## C3 -/

/-- C3. `InferenceModelTFlite::infer` on a shape mismatch: whenever the engine has produced its
output tensor `out` and the caller's `tOut` has a different shape, the call throws and `tOut`
(shape, layout tag and element values) is unchanged, whatever the layout of `tOut`. -/
theorem tflite_infer_shape_mismatch (m : InferenceModelTFlite α) (tIn tOut : Tensor α)
    (out : TfLiteTensor α) (hrun : m.engineOutput tIn = some out)
    (hne : tOut.shape ≠ out.dims.map toSizeT) :
    (m.infer tIn tOut).1 = Status.threw ∧ (m.infer tIn tOut).2.2.2 = tOut := by
  unfold InferenceModelTFlite.engineOutput at hrun
  unfold InferenceModelTFlite.infer
  dsimp only at hrun ⊢
  split
  · rename_i h; rw [h] at hrun; simp at hrun
  · rename_i m1 h1
    rw [h1] at hrun; dsimp only at hrun
    split
    · rename_i h; rw [h] at hrun; simp at hrun
    · rename_i m2 h2
      rw [h2] at hrun; dsimp only at hrun
      rw [hrun]; dsimp only
      rw [if_pos hne]
      exact ⟨rfl, rfl⟩

/-- C3 at the caller shape `[3,4]` against the engine shape `[3,5]`, for a right-layout and for a
left-layout output tensor. -/
theorem tflite_infer_shape_mismatch_witness :
    (((constTFlite tfOut35).infer rightTensor23 (callerOut34 true)).1 = Status.threw
      ∧ ((constTFlite tfOut35).infer rightTensor23 (callerOut34 true)).2.2.2 = callerOut34 true)
    ∧ (((constTFlite tfOut35).infer rightTensor23 (callerOut34 false)).1 = Status.threw
      ∧ ((constTFlite tfOut35).infer rightTensor23 (callerOut34 false)).2.2.2
          = callerOut34 false) :=
  ⟨tflite_infer_shape_mismatch (constTFlite tfOut35) rightTensor23 (callerOut34 true) tfOut35
      (by decide) (by decide),
    tflite_infer_shape_mismatch (constTFlite tfOut35) rightTensor23 (callerOut34 false) tfOut35
      (by decide) (by decide)⟩

/-! ## C4 -/

/-- C4. `InferenceModelONNX::infer` has no shape check.  Caller `[3,4]` against engine `[3,5]`:
a right-layout `tOut` is replaced by a `[3,5]` tensor and the call returns; a left-layout `tOut`
gets 15 floats copied into its 12-float buffer (out of range), and no exception is thrown.
Caller `[3,5]` against engine `[3,4]`, left layout: the call returns with the first 12 floats
overwritten. -/
theorem onnx_infer_shape_mismatch_not_detected :
    ((constONNX ortOut35).infer rightTensor23 (callerOut34 true)).1 = Status.returned
    ∧ ((constONNX ortOut35).infer rightTensor23 (callerOut34 true)).2.2.shape = [3, 5]
    ∧ ((constONNX ortOut35).infer rightTensor23 (callerOut34 false)).1 = Status.undefined
    ∧ ((constONNX ortOut34).infer rightTensor23 (callerOut35 false)).1 = Status.returned
    ∧ ((constONNX ortOut34).infer rightTensor23 (callerOut35 false)).2.2
        = { shape := [3, 5]
            data := [1, 2, 3, 4, 5, 6, 7, 8, 9, 10, 11, 12, 0, 0, 0]
            isRight := false } := by
  decide

/-! ## C5, C6, C7: the model buffer -/

theorem getElem?_lt_length {β : Type} (xs : List β) (i : Nat) (x : β) (h : xs[i]? = some x) :
    i < xs.length := by
  rw [List.getElem?_eq_some] at h
  exact h.1

/-- The constructor copies the first `n` cells at `data` into a fresh array of its own. -/
theorem construct_eq (mem : Memory) (data n : Nat) (src : List Cell)
    (hsrc : mem[data]? = some src) (hn : n ≤ src.length) :
    InferenceModelBuffer.construct mem data n
      = some (mem ++ [src.take n], { data_ := mem.length, dataSize_ := n }) := by
  have hd : data < mem.length := getElem?_lt_length _ _ _ hsrc
  have h1 : (mem ++ [List.replicate n (none : Cell)])[data]? = some src := by
    rw [List.getElem?_append_left hd, hsrc]
  simp [InferenceModelBuffer.construct, Memory.alloc, Memory.memcpy, Infero.memcpy, h1, hn,
    List.set_append]

/-- C5. `InferenceModelBuffer::from_path` on a missing file (`tellg()` is `-1`) or on a
zero-length file throws and yields no buffer; and whatever the file system, the store and the
path, a buffer that `from_path` yields never has `size() == 0`. -/
theorem from_path_missing_or_empty_throws (fs : String → FileOnDisk) (mem : Memory)
    (path : String) :
    ((fs path = .missing ∨ ∃ r, fs path = .present [] r) →
        (InferenceModelBuffer.from_path fs mem path).1 = Status.threw
        ∧ (InferenceModelBuffer.from_path fs mem path).2.2 = none)
    ∧ (∀ b, (InferenceModelBuffer.from_path fs mem path).2.2 = some b → b.size ≠ 0) := by
  constructor
  · intro h
    rcases h with h | ⟨r, h⟩ <;> simp [InferenceModelBuffer.from_path, h, FileOnDisk.tellg]
  · intro b hb
    unfold InferenceModelBuffer.from_path at hb
    dsimp only at hb
    split at hb
    · simp at hb
    · rename_i hsize
      split at hb
      · simp at hb
      · rename_i r hr
        simp only [InferenceModelBuffer.construct] at hr
        split at hr
        · simp only [Option.some.injEq] at hr hb
          subst hr
          subst hb
          simp only [InferenceModelBuffer.size]
          omega
        · simp at hr

/-- C5 at a missing path and at an empty file. -/
theorem from_path_missing_or_empty_throws_witness :
    ((InferenceModelBuffer.from_path emptyFs [] "absent").1 = Status.threw
      ∧ (InferenceModelBuffer.from_path emptyFs [] "absent").2.2 = none)
    ∧ ((InferenceModelBuffer.from_path emptyFs [] "model.onnx").1 = Status.threw
      ∧ (InferenceModelBuffer.from_path emptyFs [] "model.onnx").2.2 = none) :=
  ⟨(from_path_missing_or_empty_throws emptyFs [] "absent").1 (Or.inl (by decide)),
    (from_path_missing_or_empty_throws emptyFs [] "model.onnx").1 (Or.inr ⟨true, by decide⟩)⟩

/-- C6. `InferenceModelBuffer::from_path` on a file of positive size whose `read` fails does not
throw: it returns a buffer of the reported size whose cells were never written. -/
theorem from_path_unreadable_returns_garbage :
    unreadableFs "model.onnx" = .present [1, 2, 3] false
    ∧ (unreadableFs "model.onnx").read 3 = none
    ∧ (InferenceModelBuffer.from_path unreadableFs [] "model.onnx").1 = Status.returned
    ∧ (InferenceModelBuffer.from_path unreadableFs [] "model.onnx").2.2
        = some { data_ := 1, dataSize_ := 3 }
    ∧ InferenceModelBuffer.contents
        (InferenceModelBuffer.from_path unreadableFs [] "model.onnx").2.1
        { data_ := 1, dataSize_ := 3 } = [none, none, none] := by
  decide

/-- C7. `InferenceModelBuffer` holds an owned copy of its source.  A readable file of `n > 0`
bytes: `from_path` returns a buffer with `size() == n` whose cells are the file's bytes in order.
Any `data` array and any `dataSize` within it: the constructor yields a buffer with
`size() == dataSize` holding the first `dataSize` cells of `data`, and neither a later
assignment into the source array nor its `delete[]` changes what the buffer holds. -/
theorem buffer_owns_copy :
    (∀ (fs : String → FileOnDisk) (mem : Memory) (path : String) (bytes : List Byte),
      fs path = .present bytes true → 0 < bytes.length →
      ∃ mem1 b, InferenceModelBuffer.from_path fs mem path = (Status.returned, mem1, some b)
        ∧ b.size = bytes.length ∧ b.contents mem1 = bytes.map some)
    ∧ (∀ (mem : Memory) (data dataSize : Nat) (src : List Cell),
      mem[data]? = some src → dataSize ≤ src.length →
      ∃ mem1 b, InferenceModelBuffer.construct mem data dataSize = some (mem1, b)
        ∧ b.size = dataSize ∧ b.contents mem1 = src.take dataSize
        ∧ (∀ off v, b.contents (mem1.store data off v) = b.contents mem1)
        ∧ b.contents (mem1.delete data) = b.contents mem1) := by
  constructor
  · intro fs mem path bytes hfile hpos
    have hc := construct_eq (mem ++ [bytes.map some]) mem.length bytes.length (bytes.map some)
      (by simp) (by simp)
    refine ⟨Memory.delete (mem ++ [bytes.map some] ++ [(bytes.map some).take bytes.length])
      mem.length, { data_ := (mem ++ [bytes.map some]).length, dataSize_ := bytes.length },
      ?_, ?_, ?_⟩
    · simp only [InferenceModelBuffer.from_path, hfile, FileOnDisk.tellg, FileOnDisk.read,
        Memory.alloc]
      rw [if_neg (by omega)]
      simp only [Int.toNat_ofNat, le_refl, and_self, if_true, List.take_length]
      rw [show (mem ++ [List.replicate bytes.length (none : Cell)]).set mem.length
          (bytes.map some) = mem ++ [bytes.map some] by simp [List.set_append]]
      rw [hc]
    · rfl
    · have hget : (Memory.delete (mem ++ [bytes.map some] ++ [(bytes.map some).take bytes.length])
          mem.length)[mem.length + 1]? = some (bytes.map some) := by
        unfold Memory.delete
        rw [List.getElem?_set_ne (Nat.ne_of_lt (Nat.lt_succ_self _)),
          List.getElem?_append_right (by simp)]
        simp
      simp only [InferenceModelBuffer.contents, InferenceModelBuffer.size,
        List.getD_eq_getElem?_getD, List.length_append, List.length_singleton, hget,
        Option.getD_some]
      rw [List.take_of_length_le (by simp)]
  · intro mem data dataSize src hsrc hn
    have hd : data < mem.length := getElem?_lt_length _ _ _ hsrc
    have hne : data ≠ mem.length := Nat.ne_of_lt hd
    refine ⟨_, _, construct_eq mem data dataSize src hsrc hn, rfl, ?_, ?_, ?_⟩
    · simp [InferenceModelBuffer.contents, InferenceModelBuffer.size,
        List.getD_eq_getElem?_getD]
    · intro off v
      have h1 : (mem ++ [src.take dataSize])[data]? = some src := by
        rw [List.getElem?_append_left hd, hsrc]
      simp [InferenceModelBuffer.contents, InferenceModelBuffer.size, Memory.store, h1,
        List.getD_eq_getElem?_getD, List.getElem?_set_ne hne]
    · simp [InferenceModelBuffer.contents, InferenceModelBuffer.size, Memory.delete,
        List.getD_eq_getElem?_getD, List.getElem?_set_ne hne]

/-- C7 at a readable three-byte file and at a three-cell source array of which two cells are
copied. -/
theorem buffer_owns_copy_witness :
    (∃ mem1 b, InferenceModelBuffer.from_path readableFs [] "model.onnx"
        = (Status.returned, mem1, some b)
      ∧ b.size = [(7 : Byte), 8, 9].length ∧ b.contents mem1 = [(7 : Byte), 8, 9].map some)
    ∧ (∃ mem1 b, InferenceModelBuffer.construct [[some 4, some 5, some 6]] 0 2 = some (mem1, b)
      ∧ b.size = 2 ∧ b.contents mem1 = [some (4 : Byte), some 5, some 6].take 2
      ∧ (∀ off v, b.contents (mem1.store 0 off v) = b.contents mem1)
      ∧ b.contents (mem1.delete 0) = b.contents mem1) :=
  ⟨buffer_owns_copy.1 readableFs [] "model.onnx" [7, 8, 9] rfl (by decide),
    buffer_owns_copy.2 [[some 4, some 5, some 6]] 0 2 [some 4, some 5, some 6] rfl (by decide)⟩

/-! ## C8: layout round trip -/

theorem multiIndex_left_shift (ns : List Nat) : ∀ (g k : Nat),
    multiIndex (stridesLeft ns) ns (g + k * flatSize ns) = multiIndex (stridesLeft ns) ns g := by
  induction ns with
  | nil => intro g k; rfl
  | cons n ns ih =>
    intro g k
    simp only [stridesLeft, multiIndex, List.zipWith_cons_cons, flatSize, List.prod_cons]
    congr 1
    · rcases Nat.eq_zero_or_pos ns.prod with h | h
      · simp [h]
      · rw [show g + k * (n * ns.prod) = g + ns.prod * (k * n) by ring,
          Nat.add_mul_div_left _ _ h, Nat.add_mul_mod_self_right]
    · have := ih g (k * n)
      simp only [multiIndex, flatSize] at this
      rw [← this, show k * (n * ns.prod) = k * n * ns.prod by ring]

theorem multiIndex_inBounds (shape : List Nat) : ∀ (strides : List Nat) (g : Nat),
    strides.length = shape.length → 0 < flatSize shape →
    InBounds (multiIndex strides shape g) shape := by
  induction shape with
  | nil =>
    intro strides g hl _
    have : strides = [] := List.length_eq_zero.mp hl
    subst this
    exact List.Forall₂.nil
  | cons n ns ih =>
    intro strides g hl hpos
    cases strides with
    | nil => simp at hl
    | cons st sts =>
      simp only [flatSize, List.prod_cons] at hpos
      have hn : 0 < n := Nat.pos_of_mul_pos_right hpos
      have hns : 0 < flatSize ns := Nat.pos_of_mul_pos_left hpos
      simp only [multiIndex, List.zipWith_cons_cons]
      exact List.Forall₂.cons (Nat.mod_lt _ hn) (ih sts g (by simpa using hl) hns)

theorem stridesLeft_length (shape : List Nat) : (stridesLeft shape).length = shape.length := by
  induction shape with
  | nil => rfl
  | cons n ns ih => simp [stridesLeft, ih]

theorem stridesRightFrom_length (shape : List Nat) : ∀ acc : Nat,
    (stridesRightFrom acc shape).length = shape.length := by
  induction shape with
  | nil => intro acc; rfl
  | cons n ns ih => intro acc; simp [stridesRightFrom, ih]

theorem linearIndex_multiIndex_left (shape : List Nat) : ∀ g : Nat, g < flatSize shape →
    linearIndex (multiIndex (stridesLeft shape) shape g) (stridesLeft shape) = g := by
  induction shape with
  | nil =>
    intro g hg
    simp [flatSize] at hg
    simp [linearIndex, multiIndex, stridesLeft, hg]
  | cons n ns ih =>
    intro g hg
    simp only [flatSize, List.prod_cons] at hg
    have hP : 0 < flatSize ns := by
      rcases Nat.eq_zero_or_pos (flatSize ns) with h | h
      · rw [show ns.prod = flatSize ns from rfl, h, Nat.mul_zero] at hg
        exact absurd hg (Nat.not_lt_zero _)
      · exact h
    have hdiv : g / flatSize ns < n := by
      rw [Nat.div_lt_iff_lt_mul hP]; simpa [flatSize] using hg
    have hshift := multiIndex_left_shift ns (g % flatSize ns) (g / flatSize ns)
    have hg' : g % flatSize ns + g / flatSize ns * flatSize ns = g := by
      rw [Nat.mul_comm]; exact Nat.mod_add_div g (flatSize ns)
    rw [hg'] at hshift
    have hih := ih (g % flatSize ns) (Nat.mod_lt _ hP)
    rw [← hshift] at hih
    simp only [linearIndex, multiIndex, stridesLeft, List.zipWith_cons_cons, List.sum_cons] at hih ⊢
    rw [hih, Nat.mod_eq_of_lt hdiv]
    exact Nat.div_add_mod' g (flatSize ns)

theorem linearIndex_right_scale (idxs shape : List Nat) : ∀ acc : Nat,
    linearIndex idxs (stridesRightFrom acc shape) = acc * linearIndex idxs (stridesRight shape) := by
  induction shape generalizing idxs with
  | nil => intro acc; cases idxs <;> simp [linearIndex, stridesRightFrom, stridesRight]
  | cons n ns ih =>
    intro acc
    cases idxs with
    | nil => simp [linearIndex]
    | cons i is =>
      have h1 := ih is (acc * n)
      have h2 := ih is (1 * n)
      simp only [linearIndex, stridesRight, stridesRightFrom, List.zipWith_cons_cons,
        List.sum_cons] at h1 h2 ⊢
      rw [h1, h2]; ring

theorem multiIndex_right_scale (shape : List Nat) : ∀ (acc g : Nat),
    multiIndex (stridesRightFrom acc shape) shape g
      = multiIndex (stridesRight shape) shape (g / acc) := by
  induction shape with
  | nil => intro acc g; rfl
  | cons n ns ih =>
    intro acc g
    have h1 := ih (acc * n) g
    have h2 := ih (1 * n) (g / acc)
    simp only [multiIndex, stridesRight, stridesRightFrom, List.zipWith_cons_cons] at h1 h2 ⊢
    rw [h1, h2, Nat.div_one, Nat.one_mul, Nat.div_div_eq_div_mul]

theorem linearIndex_right_lt (idxs shape : List Nat) (h : InBounds idxs shape) :
    linearIndex idxs (stridesRight shape) < flatSize shape := by
  induction h with
  | nil => simp [linearIndex, flatSize]
  | @cons i n is ns hin _ ih =>
    have hs := linearIndex_right_scale is ns (1 * n)
    simp only [linearIndex, stridesRight, stridesRightFrom, List.zipWith_cons_cons,
      List.sum_cons, flatSize, List.prod_cons] at hs ih ⊢
    rw [hs, Nat.mul_one, Nat.one_mul]
    have h1 : n * ((List.zipWith (fun i st => i * st) is (stridesRightFrom 1 ns)).sum + 1)
        ≤ n * ns.prod := Nat.mul_le_mul_left n ih
    rw [Nat.mul_add, Nat.mul_one] at h1
    omega

theorem multiIndex_linearIndex_right (idxs shape : List Nat) (h : InBounds idxs shape) :
    multiIndex (stridesRight shape) shape (linearIndex idxs (stridesRight shape)) = idxs := by
  induction h with
  | nil => rfl
  | @cons i n is ns hin _ ih =>
    have hs := linearIndex_right_scale is ns (1 * n)
    have hm := multiIndex_right_scale ns (1 * n)
    simp only [linearIndex, multiIndex, stridesRight, stridesRightFrom, List.zipWith_cons_cons,
      List.sum_cons] at hs hm ih ⊢
    rw [hs, hm]
    have hn : 0 < n := by omega
    congr 1
    · rw [Nat.div_one, Nat.mul_one, Nat.one_mul, Nat.add_mul_mod_self_left, Nat.mod_eq_of_lt hin]
    · rw [Nat.mul_one, Nat.one_mul, Nat.add_mul_div_left _ _ hn, Nat.div_eq_of_lt hin, Nat.zero_add]
      exact ih


theorem relayout_length (src dst shape : List Nat) (a : List α) :
    (relayout src dst shape a).length = flatSize shape := by
  simp [relayout]

theorem relayout_getD (src dst shape : List Nat) (a : List α)
    (p : Nat) (hp : p < flatSize shape) :
    (relayout src dst shape a).getD p default
      = a.getD (linearIndex (multiIndex dst shape p) src) default := by
  simp [relayout, List.getD_eq_getElem?_getD, List.getElem?_map, List.getElem?_range hp]

theorem relayout_roundtrip (shape : List Nat) (a : List α)
    (h : a.length = flatSize shape) :
    relayout (stridesRight shape) (stridesLeft shape) shape
      (relayout (stridesLeft shape) (stridesRight shape) shape a) = a := by
  apply List.ext_getElem
  · rw [relayout_length, h]
  · intro q hq1 hq2
    have hq : q < flatSize shape := by rw [← h]; exact hq2
    have hpos : 0 < flatSize shape := Nat.lt_of_le_of_lt (Nat.zero_le _) hq
    have hb := multiIndex_inBounds shape (stridesLeft shape) q (stridesLeft_length shape) hpos
    have hlt := linearIndex_right_lt _ _ hb
    have e1 := relayout_getD (stridesRight shape) (stridesLeft shape) shape
      (relayout (stridesLeft shape) (stridesRight shape) shape a) q hq
    rw [relayout_getD _ _ _ _ _ hlt, multiIndex_linearIndex_right _ _ hb,
      linearIndex_multiIndex_left _ _ hq] at e1
    rw [List.getD_eq_getElem _ _ hq1, List.getD_eq_getElem _ _ hq2] at e1
    exact e1


theorem linearIndex_left_lt (idxs shape : List Nat) (h : InBounds idxs shape) :
    linearIndex idxs (stridesLeft shape) < flatSize shape := by
  induction h with
  | nil => simp [linearIndex, flatSize]
  | @cons i n is ns hin _ ih =>
    simp only [linearIndex, stridesLeft, List.zipWith_cons_cons, List.sum_cons, flatSize,
      List.prod_cons] at ih ⊢
    have h1 : (i + 1) * ns.prod ≤ n * ns.prod := Nat.mul_le_mul_right _ hin
    rw [Nat.add_mul, Nat.one_mul] at h1
    omega

theorem multiIndex_linearIndex_left (idxs shape : List Nat) (h : InBounds idxs shape) :
    multiIndex (stridesLeft shape) shape (linearIndex idxs (stridesLeft shape)) = idxs := by
  induction h with
  | @nil => rfl
  | @cons i n is ns hin hrest ih =>
    have hlt := linearIndex_left_lt is ns hrest
    have hshift := multiIndex_left_shift ns (linearIndex is (stridesLeft ns)) i
    have hP : 0 < flatSize ns := Nat.lt_of_le_of_lt (Nat.zero_le _) hlt
    have hL : linearIndex (i :: is) (stridesLeft (n :: ns))
        = linearIndex is (stridesLeft ns) + i * flatSize ns := by
      simp only [linearIndex, stridesLeft, List.zipWith_cons_cons, List.sum_cons]
      exact Nat.add_comm _ _
    rw [hL]
    show ((linearIndex is (stridesLeft ns) + i * flatSize ns) / flatSize ns) % n
        :: multiIndex (stridesLeft ns) ns (linearIndex is (stridesLeft ns) + i * flatSize ns)
      = i :: is
    rw [hshift, ih, Nat.add_mul_div_right _ _ hP, Nat.div_eq_of_lt hlt, Nat.zero_add,
      Nat.mod_eq_of_lt hin]

theorem linearIndex_multiIndex_right (shape : List Nat) : ∀ g : Nat, g < flatSize shape →
    linearIndex (multiIndex (stridesRight shape) shape g) (stridesRight shape) = g := by
  induction shape with
  | nil =>
    intro g hg
    simp [flatSize] at hg
    simp [linearIndex, multiIndex, stridesRight, stridesRightFrom, hg]
  | cons n ns ih =>
    intro g hg
    have hg2 : g < n * flatSize ns := hg
    have hn : 0 < n := by
      rcases Nat.eq_zero_or_pos n with h | h
      · rw [h, Nat.zero_mul] at hg2; exact absurd hg2 (Nat.not_lt_zero _)
      · exact h
    have hdiv : g / n < flatSize ns := by
      rw [Nat.div_lt_iff_lt_mul hn, Nat.mul_comm]; exact hg2
    have hm := multiIndex_right_scale ns (1 * n) g
    have hs := linearIndex_right_scale (multiIndex (stridesRight ns) ns (g / (1 * n))) ns (1 * n)
    have hih := ih (g / n) hdiv
    show linearIndex ((g / 1) % n :: multiIndex (stridesRightFrom (1 * n) ns) ns g)
        (1 :: stridesRightFrom (1 * n) ns) = g
    rw [hm]
    show (g / 1) % n * 1
        + linearIndex (multiIndex (stridesRight ns) ns (g / (1 * n))) (stridesRightFrom (1 * n) ns)
      = g
    rw [hs, Nat.one_mul, hih, Nat.div_one, Nat.mul_one]
    exact Nat.mod_add_div g n

theorem relayout_roundtrip_right (shape : List Nat) (a : List α)
    (h : a.length = flatSize shape) :
    relayout (stridesLeft shape) (stridesRight shape) shape
      (relayout (stridesRight shape) (stridesLeft shape) shape a) = a := by
  apply List.ext_getElem
  · rw [relayout_length, h]
  · intro q hq1 hq2
    have hq : q < flatSize shape := by rw [← h]; exact hq2
    have hpos : 0 < flatSize shape := Nat.lt_of_le_of_lt (Nat.zero_le _) hq
    have hb := multiIndex_inBounds shape (stridesRight shape) q
      (stridesRightFrom_length shape 1) hpos
    have hlt := linearIndex_left_lt _ _ hb
    have e1 := relayout_getD (stridesLeft shape) (stridesRight shape) shape
      (relayout (stridesRight shape) (stridesLeft shape) shape a) q hq
    rw [relayout_getD _ _ _ _ _ hlt, multiIndex_linearIndex_left _ _ hb,
      linearIndex_multiIndex_right _ _ hq] at e1
    rw [List.getD_eq_getElem _ _ hq1, List.getD_eq_getElem _ _ hq2] at e1
    exact e1

/-- The conversion example of spec §8: the row-major `2×3` tensor `[1,2,3,4,5,6]` becomes the
column-major `[1,4,2,5,3,6]` of the same shape. -/
theorem transformLeftToRightLayout_example :
    Tensor.transformLeftToRightLayout
        ({ shape := [2, 3], data := [1, 2, 3, 4, 5, 6], isRight := false } : Tensor Nat)
      = { shape := [2, 3], data := [1, 4, 2, 5, 3, 6], isRight := true } := by
  decide

/-- C8. Layout round trip: for every tensor `T` whose buffer holds `product(shape)` elements
(any shape, so in particular every rank from 1 on, and any values), the left-to-right transform
applied to engine outputs followed by the to-left transform applied to inputs gives back a tensor
with the shape of `T` and the very same element values, in the left layout.  In the other order
(to-left, then left-to-right) a right-layout `T` comes back as `T` itself. -/
theorem layout_round_trip (T : Tensor α) (hwf : T.WellFormed) :
    (T.transformLeftToRightLayout.toLeftLayout).shape = T.shape
    ∧ (T.transformLeftToRightLayout.toLeftLayout).data = T.data
    ∧ (T.transformLeftToRightLayout.toLeftLayout).isRight = false
    ∧ (T.isRight = true → T.toLeftLayout.transformLeftToRightLayout = T) := by
  refine ⟨rfl, relayout_roundtrip T.shape T.data hwf, rfl, ?_⟩
  intro hright
  obtain ⟨shape, data, isRight⟩ := T
  simp only at hright
  subst hright
  simp only [Tensor.toLeftLayout, Tensor.transformRightToLeftLayout,
    Tensor.transformLeftToRightLayout, if_true, Tensor.mk.injEq, and_true, true_and]
  exact relayout_roundtrip_right shape data hwf

/-- C8 at a left-layout tensor of shape `[2,3,2]` and at a right-layout tensor of shape
`[2,3]`. -/
theorem layout_round_trip_witness :
    ((Tensor.toLeftLayout (Tensor.transformLeftToRightLayout leftTensor232)).shape = [2, 3, 2]
      ∧ (Tensor.toLeftLayout (Tensor.transformLeftToRightLayout leftTensor232)).data
          = [1, 2, 3, 4, 5, 6, 7, 8, 9, 10, 11, 12]
      ∧ (Tensor.toLeftLayout (Tensor.transformLeftToRightLayout leftTensor232)).isRight = false
      ∧ (leftTensor232.isRight = true →
          Tensor.transformLeftToRightLayout (Tensor.toLeftLayout leftTensor232) = leftTensor232))
    ∧ ((Tensor.toLeftLayout (Tensor.transformLeftToRightLayout rightTensor23)).shape = [2, 3]
      ∧ (Tensor.toLeftLayout (Tensor.transformLeftToRightLayout rightTensor23)).data
          = [1, 2, 3, 4, 5, 6]
      ∧ (Tensor.toLeftLayout (Tensor.transformLeftToRightLayout rightTensor23)).isRight = false
      ∧ (rightTensor23.isRight = true →
          Tensor.transformLeftToRightLayout (Tensor.toLeftLayout rightTensor23)
            = rightTensor23)) :=
  ⟨layout_round_trip leftTensor232 rfl, layout_round_trip rightTensor23 rfl⟩

/-! ## C9: output marshalling of the single-IO calls -/

theorem memcpy_all {β : Type} (dst src : List β) (h : src.length ≤ dst.length) :
    memcpy dst src src.length = some (src ++ dst.drop src.length) := by
  simp [memcpy, h]

theorem out_size_fold (M : Nat) (s : List Nat) : ∀ a : Nat,
    s.foldl (fun acc d => acc * d % M) a % M = a * s.prod % M := by
  induction s with
  | nil => intro a; simp
  | cons d ds ih =>
    intro a
    simp only [List.foldl_cons, List.prod_cons]
    rw [ih, Nat.mod_mul_mod, Nat.mul_assoc]

theorem out_size_fold_lt (M : Nat) (hM : 0 < M) (s : List Nat) : ∀ a : Nat, a < M →
    s.foldl (fun acc d => acc * d % M) a < M := by
  induction s with
  | nil => intro a ha; simpa using ha
  | cons d ds ih =>
    intro a _
    simp only [List.foldl_cons]
    exact ih _ (Nat.mod_lt _ hM)

theorem out_size_eq (s : List Nat) (h : flatSize s < 2 ^ 64) : out_size s = flatSize s := by
  have h1 := out_size_fold (2 ^ 64) s 1
  have h2 := out_size_fold_lt (2 ^ 64) (by norm_num) s 1 (by norm_num)
  rw [Nat.mod_eq_of_lt h2, Nat.one_mul] at h1
  unfold out_size
  rw [h1]
  exact Nat.mod_eq_of_lt h

/-- Once the engine has produced `front`, `InferenceModelONNX::infer` is its output stage. -/
theorem onnx_infer_of_engineOutput (m : InferenceModelONNX α) (tIn tOut : Tensor α)
    (front : OrtValue α) (hrun : m.engineOutput tIn = some front) :
    m.infer tIn tOut =
      if tOut.isRight then
        (Status.returned, (if tIn.isRight then tIn.toLeftLayout else tIn),
          Tensor.transformLeftToRightLayout
            { shape := convert_shape toSizeT front.GetShape
              data := front.GetTensorData
              isRight := false })
      else
        match memcpy tOut.data front.GetTensorData front.GetElementCount with
        | some d =>
          (Status.returned, (if tIn.isRight then tIn.toLeftLayout else tIn),
            { tOut with data := d })
        | none => (Status.undefined, (if tIn.isRight then tIn.toLeftLayout else tIn), tOut) := by
  unfold InferenceModelONNX.engineOutput at hrun
  unfold InferenceModelONNX.infer
  split at hrun
  · simp at hrun
  · rename_i h1
    rw [if_neg h1]
    split at hrun
    · simp at hrun
    · rename_i h2
      rw [if_neg h2]
      dsimp only at hrun ⊢
      rw [if_neg (by simp [OrtValue.CreateTensor])]
      split at hrun
      · split at hrun
        · split at hrun
          · rename_i e4 e5
            simp only [Option.some.injEq] at hrun
            subst hrun
            simp only [e4, e5, Bool.true_eq_false, if_false]
          · simp at hrun
        · simp at hrun
      · simp at hrun

/-- Once the interpreter has produced `out`, `InferenceModelTFlite::infer` is its output
stage. -/
theorem tflite_infer_of_engineOutput (m : InferenceModelTFlite α) (tIn tOut : Tensor α)
    (out : TfLiteTensor α) (hrun : m.engineOutput tIn = some out)
    (hshape : tOut.shape = out.dims.map toSizeT) :
    ((m.infer tIn tOut).1, (m.infer tIn tOut).2.2.2) =
      if tOut.isRight then
        (Status.returned,
          Tensor.transformLeftToRightLayout
            { shape := out.dims.map toSizeT, data := out.data, isRight := false })
      else
        match memcpy tOut.data out.data (out_size (out.dims.map toSizeT)) with
        | some d => (Status.returned, { tOut with data := d })
        | none => (Status.undefined, tOut) := by
  unfold InferenceModelTFlite.engineOutput at hrun
  unfold InferenceModelTFlite.infer
  dsimp only at hrun ⊢
  split
  · rename_i h; rw [h] at hrun; simp at hrun
  · rename_i m1 h1
    rw [h1] at hrun; dsimp only at hrun
    split
    · rename_i h; rw [h] at hrun; simp at hrun
    · rename_i m2 h2
      rw [h2] at hrun; dsimp only at hrun
      rw [hrun]; dsimp only
      rw [if_neg (by simpa using hshape)]
      split
      · rfl
      · split <;> rfl

/-- C9. Output marshalling of `infer`, for ONNX and for TFlite.  When the engine has produced
its output and the caller's `tOut` is left-layout with the engine's output shape, the call
returns, `tOut` keeps its shape and layout tag and its element `i` is the engine's element `i`
for every `i` below the element count.  When `tOut` is right-layout, the call returns and
`tOut` is the left-to-right transform of the engine's output (for TFlite, whose `infer` asserts
the shape, under the same shape condition). -/
theorem infer_output_marshalling :
    (∀ (m : InferenceModelONNX α) (tIn tOut : Tensor α) (front : OrtValue α),
      m.engineOutput tIn = some front → tOut.isRight = false →
      tOut.shape = convert_shape toSizeT front.GetShape → tOut.WellFormed →
      front.GetTensorData.length = flatSize (convert_shape toSizeT front.GetShape) →
      (m.infer tIn tOut).1 = Status.returned
      ∧ (m.infer tIn tOut).2.2.shape = tOut.shape
      ∧ (m.infer tIn tOut).2.2.isRight = false
      ∧ ∀ i, i < front.GetElementCount →
          (m.infer tIn tOut).2.2.data[i]? = front.GetTensorData[i]?)
    ∧ (∀ (m : InferenceModelONNX α) (tIn tOut : Tensor α) (front : OrtValue α),
      m.engineOutput tIn = some front → tOut.isRight = true →
      (m.infer tIn tOut).1 = Status.returned
      ∧ (m.infer tIn tOut).2.2 = Tensor.transformLeftToRightLayout
          { shape := convert_shape toSizeT front.GetShape
            data := front.GetTensorData
            isRight := false })
    ∧ (∀ (m : InferenceModelTFlite α) (tIn tOut : Tensor α) (out : TfLiteTensor α),
      m.engineOutput tIn = some out → tOut.isRight = false →
      tOut.shape = out.dims.map toSizeT → tOut.WellFormed → tOut.size < 2 ^ 64 →
      out.data.length = flatSize (out.dims.map toSizeT) →
      (m.infer tIn tOut).1 = Status.returned
      ∧ (m.infer tIn tOut).2.2.2.shape = tOut.shape
      ∧ (m.infer tIn tOut).2.2.2.isRight = false
      ∧ ∀ i, i < out.data.length → (m.infer tIn tOut).2.2.2.data[i]? = out.data[i]?)
    ∧ (∀ (m : InferenceModelTFlite α) (tIn tOut : Tensor α) (out : TfLiteTensor α),
      m.engineOutput tIn = some out → tOut.isRight = true →
      tOut.shape = out.dims.map toSizeT →
      (m.infer tIn tOut).1 = Status.returned
      ∧ (m.infer tIn tOut).2.2.2 = Tensor.transformLeftToRightLayout
          { shape := out.dims.map toSizeT, data := out.data, isRight := false }) := by
  refine ⟨?_, ?_, ?_, ?_⟩
  · intro m tIn tOut front hrun hleft hshape hwf hlen
    have hle : front.GetTensorData.length ≤ tOut.data.length := by
      rw [hwf, hshape, hlen]
    have heq : m.infer tIn tOut = (Status.returned,
        (if tIn.isRight then tIn.toLeftLayout else tIn),
        { tOut with data := front.GetTensorData ++ tOut.data.drop front.GetTensorData.length }) := by
      rw [onnx_infer_of_engineOutput m tIn tOut front hrun, hleft]
      simp only [Bool.false_eq_true, if_false, OrtValue.GetElementCount, memcpy_all _ _ hle]
    rw [heq]
    exact ⟨rfl, rfl, hleft, fun i hi => List.getElem?_append_left hi⟩
  · intro m tIn tOut front hrun hright
    rw [onnx_infer_of_engineOutput m tIn tOut front hrun, hright]
    exact ⟨rfl, rfl⟩
  · intro m tIn tOut out hrun hleft hshape hwf hsize hlen
    have hsz : out_size (out.dims.map toSizeT) = out.data.length := by
      rw [hlen, ← hshape]
      exact out_size_eq _ hsize
    have hle : out.data.length ≤ tOut.data.length := by
      rw [hwf, hshape, hlen]
    have h := tflite_infer_of_engineOutput m tIn tOut out hrun hshape
    rw [hleft, hsz] at h
    simp only [Bool.false_eq_true, if_false, memcpy_all _ _ hle, Prod.mk.injEq] at h
    obtain ⟨h1, h2⟩ := h
    rw [h1, h2]
    exact ⟨rfl, rfl, rfl, fun i hi => List.getElem?_append_left hi⟩
  · intro m tIn tOut out hrun hright hshape
    have h := tflite_infer_of_engineOutput m tIn tOut out hrun hshape
    rw [hright] at h
    simp only [if_true, Prod.mk.injEq] at h
    exact h

/-- C9 at engine outputs of shape `[3,5]`, for a left-layout and a right-layout caller tensor of
that shape, with the ONNX and with the TFlite model. -/
theorem infer_output_marshalling_witness :
    (((constONNX ortOut35).infer rightTensor23 (callerOut35 false)).1 = Status.returned
      ∧ ((constONNX ortOut35).infer rightTensor23 (callerOut35 false)).2.2.shape = [3, 5]
      ∧ ((constONNX ortOut35).infer rightTensor23 (callerOut35 false)).2.2.isRight = false
      ∧ ∀ i, i < ortOut35.GetElementCount →
          ((constONNX ortOut35).infer rightTensor23 (callerOut35 false)).2.2.data[i]?
            = ortOut35.GetTensorData[i]?)
    ∧ (((constONNX ortOut35).infer rightTensor23 (callerOut35 true)).1 = Status.returned
      ∧ ((constONNX ortOut35).infer rightTensor23 (callerOut35 true)).2.2
          = Tensor.transformLeftToRightLayout
              { shape := [3, 5], data := ortOut35.GetTensorData, isRight := false })
    ∧ (((constTFlite tfOut35).infer rightTensor23 (callerOut35 false)).1 = Status.returned
      ∧ ((constTFlite tfOut35).infer rightTensor23 (callerOut35 false)).2.2.2.shape = [3, 5]
      ∧ ((constTFlite tfOut35).infer rightTensor23 (callerOut35 false)).2.2.2.isRight = false
      ∧ ∀ i, i < tfOut35.data.length →
          ((constTFlite tfOut35).infer rightTensor23 (callerOut35 false)).2.2.2.data[i]?
            = tfOut35.data[i]?)
    ∧ (((constTFlite tfOut35).infer rightTensor23 (callerOut35 true)).1 = Status.returned
      ∧ ((constTFlite tfOut35).infer rightTensor23 (callerOut35 true)).2.2.2
          = Tensor.transformLeftToRightLayout
              { shape := [3, 5], data := tfOut35.data, isRight := false }) :=
  ⟨(@infer_output_marshalling Nat _).1 (constONNX ortOut35) rightTensor23 (callerOut35 false)
      ortOut35 (by decide) rfl (by decide) rfl rfl,
    (@infer_output_marshalling Nat _).2.1 (constONNX ortOut35) rightTensor23 (callerOut35 true)
      ortOut35 (by decide) rfl,
    (@infer_output_marshalling Nat _).2.2.1 (constTFlite tfOut35) rightTensor23
      (callerOut35 false) tfOut35 (by decide) rfl (by decide) rfl (by decide) rfl,
    (@infer_output_marshalling Nat _).2.2.2 (constTFlite tfOut35) rightTensor23
      (callerOut35 true) tfOut35 (by decide) rfl (by decide)⟩

/-! ## C10: lifecycle -/

/-- C10 as stated fails: on a model that was never opened, and on one that was opened and then
closed, `InferenceModelONNX::infer` does not throw; it runs the engine and returns its output. -/
theorem onnx_infer_runs_when_closed :
    closedEcho.isOpen_ = false
    ∧ (closedEcho.infer rightTensor23 rightOut23).1 = Status.returned
    ∧ (closedEcho.infer rightTensor23 rightOut23).1 ≠ Status.threw
    ∧ (closedEcho.infer rightTensor23 rightOut23).2.2 = rightTensor23
    ∧ reclosedEcho.isOpen_ = false
    ∧ (reclosedEcho.infer rightTensor23 rightOut23).1 = Status.returned
    ∧ (reclosedEcho.infer rightTensor23 rightOut23).1 ≠ Status.threw
    ∧ (reclosedEcho.infer rightTensor23 rightOut23).2.2 = rightTensor23 := by
  decide

/-- With one declared input and output, a session that returns the one tensor value `front` for
the value made from `tIn` is what `engineOutput` reports. -/
theorem onnx_engineOutput_of_session (m : InferenceModelONNX α) (tIn : Tensor α)
    (front : OrtValue α) (hin : m.inputNames.length = 1) (hout : m.outputNames.length = 1)
    (hni : m.numInputs = 1) (hno : m.numOutputs = 1)
    (hrun : m.session m.inputNames
        [OrtValue.CreateTensor tIn.toLeftLayout.data tIn.toLeftLayout.size
          (convert_shape sizeToInt64 tIn.toLeftLayout.shape)] m.outputNames = some [front])
    (ht : front.IsTensor = true) : m.engineOutput tIn = some front := by
  have hT : (if tIn.isRight then tIn.toLeftLayout else tIn) = tIn.toLeftLayout := by
    unfold Tensor.toLeftLayout
    split <;> rfl
  have h1 : readArray m.inputNames m.numInputs = some m.inputNames := by
    simp [readArray, hni, hin, List.take_of_length_le]
  have h3 : readArray m.outputNames m.numOutputs = some m.outputNames := by
    simp [readArray, hno, hout, List.take_of_length_le]
  have h2 : ∀ x : OrtValue α, readArray [x] m.numInputs = some [x] := by
    intro x
    simp [readArray, hni]
  unfold InferenceModelONNX.engineOutput
  rw [if_neg (by simp [hin]), if_neg (by simp [hout]), hT]
  simp only [h1, h2, h3, hrun, ht, if_true]

/-- C10, amended. `InferenceModelONNX::infer` does not consult the lifecycle state.  On every
model in the Closed state that declares one input and one output, `infer` runs the engine:
whenever the session returns one tensor value `front` for the value made from `tIn`, the call
does not throw, a right-layout `tOut` becomes the left-to-right transform of `front`, and a
left-layout `tOut` with room for it receives the floats of `front`.  The call does exactly what
it does on the same model in the Open state. -/
theorem onnx_infer_ignores_lifecycle (m : InferenceModelONNX α) (tIn tOut : Tensor α)
    (front : OrtValue α) (_hclosed : m.isOpen_ = false)
    (hin : m.inputNames.length = 1) (hout : m.outputNames.length = 1)
    (hni : m.numInputs = 1) (hno : m.numOutputs = 1)
    (hrun : m.session m.inputNames
        [OrtValue.CreateTensor tIn.toLeftLayout.data tIn.toLeftLayout.size
          (convert_shape sizeToInt64 tIn.toLeftLayout.shape)] m.outputNames = some [front])
    (ht : front.IsTensor = true) :
    m.infer tIn tOut = ({ m with isOpen_ := true } : InferenceModelONNX α).infer tIn tOut
    ∧ (m.infer tIn tOut).1 ≠ Status.threw
    ∧ (m.infer tIn tOut).2.1 = tIn.toLeftLayout
    ∧ (tOut.isRight = true →
        (m.infer tIn tOut).1 = Status.returned
        ∧ (m.infer tIn tOut).2.2 = Tensor.transformLeftToRightLayout
            { shape := convert_shape toSizeT front.GetShape
              data := front.GetTensorData
              isRight := false })
    ∧ (tOut.isRight = false → front.GetElementCount ≤ tOut.data.length →
        (m.infer tIn tOut).1 = Status.returned
        ∧ (m.infer tIn tOut).2.2
            = { tOut with
                data := front.GetTensorData ++ tOut.data.drop front.GetElementCount }) := by
  have hT : (if tIn.isRight then tIn.toLeftLayout else tIn) = tIn.toLeftLayout := by
    unfold Tensor.toLeftLayout
    split <;> rfl
  have heng := onnx_engineOutput_of_session m tIn front hin hout hni hno hrun ht
  have h := onnx_infer_of_engineOutput m tIn tOut front heng
  rw [hT] at h
  refine ⟨rfl, ?_, ?_, ?_, ?_⟩
  · rw [h]
    split
    · simp
    · split <;> simp
  · rw [h]
    split
    · rfl
    · split <;> rfl
  · intro hright
    rw [h, if_pos hright]
    exact ⟨rfl, rfl⟩
  · intro hleft hfit
    rw [h, if_neg (by simp [hleft])]
    unfold OrtValue.GetElementCount at hfit ⊢
    rw [memcpy_all _ _ hfit]
    exact ⟨rfl, rfl⟩

/-- C10, amended, at the never-opened echo model: with the right-layout input `[1,2,3,4,5,6]`
of shape `[2,3]` the engine is handed, and returns, the left-layout `[1,3,5,2,4,6]`. -/
theorem onnx_infer_ignores_lifecycle_witness :
    closedEcho.infer rightTensor23 rightOut23
      = ({ closedEcho with isOpen_ := true } : InferenceModelONNX Nat).infer rightTensor23
          rightOut23
    ∧ (closedEcho.infer rightTensor23 rightOut23).1 ≠ Status.threw
    ∧ (closedEcho.infer rightTensor23 rightOut23).2.1 = rightTensor23.toLeftLayout
    ∧ (rightOut23.isRight = true →
        (closedEcho.infer rightTensor23 rightOut23).1 = Status.returned
        ∧ (closedEcho.infer rightTensor23 rightOut23).2.2 = Tensor.transformLeftToRightLayout
            { shape := convert_shape toSizeT (ortOutOf [2, 3] [1, 3, 5, 2, 4, 6]).GetShape
              data := (ortOutOf [2, 3] [1, 3, 5, 2, 4, 6]).GetTensorData
              isRight := false })
    ∧ (rightOut23.isRight = false →
        (ortOutOf [2, 3] [1, 3, 5, 2, 4, 6]).GetElementCount ≤ rightOut23.data.length →
        (closedEcho.infer rightTensor23 rightOut23).1 = Status.returned
        ∧ (closedEcho.infer rightTensor23 rightOut23).2.2
            = { rightOut23 with
                data := (ortOutOf [2, 3] [1, 3, 5, 2, 4, 6]).GetTensorData
                  ++ rightOut23.data.drop (ortOutOf [2, 3] [1, 3, 5, 2, 4, 6]).GetElementCount }) :=
  onnx_infer_ignores_lifecycle closedEcho rightTensor23 rightOut23
    (ortOutOf [2, 3] [1, 3, 5, 2, 4, 6]) rfl rfl rfl rfl rfl (by decide) rfl

/-! ## C11: binding counts of `infer_mimo` -/

/-- C11. `InferenceModelONNX::infer_mimo` checks no binding count.  Two input tensors and names
against `numInputs = 1`: the call returns and the output holds what the engine computed from
the first input.  One tensor and name against `numInputs = 2`: `Run` reads two values from the
one-element `inputTensors`.  One tensor with two names: `itensors[1]` is past the end.  No
output tensor against `numOutputs = 1`: `tOut[0]` is past the end.  One output tensor with no
output name: the call returns.  None of these calls throws. -/
theorem onnx_infer_mimo_binding_count_unchecked :
    (echoONNX.infer_mimo [rightTensor23, otherTensor23, leftTensor23] [0, 1] ["in", "in2"] [2]
        ["out"]).1 = Status.returned
    ∧ (echoONNX.infer_mimo [rightTensor23, otherTensor23, leftTensor23] [0, 1] ["in", "in2"] [2]
        ["out"]).2.2[2]? = some { shape := [2, 3], data := [1, 3, 5, 2, 4, 6], isRight := false }
    ∧ (twoInputONNX.infer_mimo [rightTensor23, leftTensor23] [0] ["a"] [1] ["out"]).1
        = Status.undefined
    ∧ (echoONNX.infer_mimo [rightTensor23, leftTensor23] [0] ["in", "in2"] [1] ["out"]).1
        = Status.undefined
    ∧ (echoONNX.infer_mimo [rightTensor23, leftTensor23] [0] ["in"] [] []).1 = Status.undefined
    ∧ (echoONNX.infer_mimo [rightTensor23, leftTensor23] [0] ["in"] [1] []).1
        = Status.returned := by
  decide

/-! ## C12: output shapes of `infer_mimo` -/

/-- C12. Neither `infer_mimo` compares the caller's output shape with the engine's.  ONNX,
caller `[3,4]` against engine `[3,5]`: a right-layout output tensor is replaced by a `[3,5]`
tensor and the call returns; a left-layout one gets 15 floats copied into its 12-float buffer
(out of range), without an exception.  TFlite, caller `[3,4]` against engine `[3,5]`: the call
returns, a left-layout output tensor holding the first 12 of the engine's 15 floats, a
right-layout one their transform under the caller's shape. -/
theorem infer_mimo_shape_mismatch_not_detected :
    ((constONNX ortOut35).infer_mimo [rightTensor23, callerOut34 true] [0] ["in"] [1]
        ["out"]).1 = Status.returned
    ∧ ((constONNX ortOut35).infer_mimo [rightTensor23, callerOut34 true] [0] ["in"] [1]
        ["out"]).2.2[1]?
        = some (Tensor.transformLeftToRightLayout
            { shape := [3, 5], data := ortOut35.GetTensorData, isRight := false })
    ∧ ((constONNX ortOut35).infer_mimo [rightTensor23, callerOut34 false] [0] ["in"] [1]
        ["out"]).1 = Status.undefined
    ∧ ((constTFlite tfOut35).infer_mimo [rightTensor23, callerOut34 false] [0] ["in"] [1]
        ["out"]).1 = Status.returned
    ∧ ((constTFlite tfOut35).infer_mimo [rightTensor23, callerOut34 false] [0] ["in"] [1]
        ["out"]).2.2[1]?
        = some { shape := [3, 4]
                 data := [1, 2, 3, 4, 5, 6, 7, 8, 9, 10, 11, 12]
                 isRight := false }
    ∧ ((constTFlite tfOut35).infer_mimo [rightTensor23, callerOut34 true] [0] ["in"] [1]
        ["out"]).1 = Status.returned
    ∧ ((constTFlite tfOut35).infer_mimo [rightTensor23, callerOut34 true] [0] ["in"] [1]
        ["out"]).2.2[1]?
        = some (Tensor.transformLeftToRightLayout
            { shape := [3, 4], data := tfOut35.data, isRight := false }) := by
  decide

/-! ## C13: shape width conversion -/

theorem convert_shape_fold {F T : Type} (cast : F → T) (vec : List F) : ∀ acc : List T,
    vec.foldl (fun vec_new x => vec_new ++ [cast x]) acc = acc ++ vec.map cast := by
  induction vec with
  | nil => intro acc; simp
  | cons x xs ih => intro acc; simp [ih]

theorem convert_shape_eq_map {F T : Type} (cast : F → T) (vec : List F) :
    convert_shape cast vec = vec.map cast := by
  unfold convert_shape
  rw [convert_shape_fold]
  rfl

theorem sizeToInt64_of_lt (d : Nat) (h : d < 2 ^ 63) : sizeToInt64 d = (d : Int) := by
  unfold sizeToInt64 toInt64
  omega

theorem sizeToInt_of_lt (d : Nat) (h : d < 2 ^ 31) : sizeToInt d = (d : Int) := by
  unfold sizeToInt toInt32
  omega

theorem toSizeT_of_nonneg (d : Int) (h0 : 0 ≤ d) (h : d < 2 ^ 64) : toSizeT d = d.toNat := by
  unfold toSizeT
  rw [Int.emod_eq_of_lt h0 h]

/-- C13 as stated fails: `convert_shape` never rejects a shape.  The `size_t` dimension `2^63`
comes back as the `int64_t` `-2^63`; the dimension `2^32 + 5` comes back as the `int` `5`; the
`int64_t` dimension `-1` comes back as the `size_t` `2^64 - 1`; and the shape `[65536, 65536]`,
whose element count `2^32` does not fit an `int`, is converted to `int` without complaint; so is
the shape filled in by the loop of `InferenceModelTFlite::infer`. -/
theorem convert_shape_wraps :
    convert_shape sizeToInt64 [2, 2 ^ 63] = [2, -(2 ^ 63)]
    ∧ convert_shape sizeToInt [3, 2 ^ 32 + 5] = [3, 5]
    ∧ convert_shape toSizeT [-1, 4] = [2 ^ 64 - 1, 4]
    ∧ convert_shape sizeToInt [65536, 65536] = [65536, 65536]
    ∧ ¬ ((flatSize [65536, 65536] : Int) < 2 ^ 31)
    ∧ [3, 2 ^ 32 + 5].map sizeToInt = [3, 5] := by
  decide

/-- C13, amended. `convert_shape` never fails and checks neither the dimensions nor their
product: it returns a shape of the same rank in which every dimension that is representable
in the target type is the caller's dimension unchanged, from `size_t` to `int64_t`, from
`size_t` to `int`, and from `int64_t` to `size_t`. -/
theorem convert_shape_keeps_representable (shape : List Nat) (eshape : List Int) :
    ((convert_shape sizeToInt64 shape).length = shape.length
      ∧ ∀ (i : Nat) (d : Nat), shape[i]? = some d → d < 2 ^ 63 →
          (convert_shape sizeToInt64 shape)[i]? = some (d : Int))
    ∧ ((convert_shape sizeToInt shape).length = shape.length
      ∧ ∀ (i : Nat) (d : Nat), shape[i]? = some d → d < 2 ^ 31 →
          (convert_shape sizeToInt shape)[i]? = some (d : Int))
    ∧ ((convert_shape toSizeT eshape).length = eshape.length
      ∧ ∀ (i : Nat) (d : Int), eshape[i]? = some d → 0 ≤ d → d < 2 ^ 64 →
          (convert_shape toSizeT eshape)[i]? = some d.toNat) := by
  simp only [convert_shape_eq_map, List.length_map, List.getElem?_map, true_and]
  refine ⟨?_, ?_, ?_⟩
  · intro i d hd hlt
    rw [hd, Option.map_some', sizeToInt64_of_lt d hlt]
  · intro i d hd hlt
    rw [hd, Option.map_some', sizeToInt_of_lt d hlt]
  · intro i d hd h0 hlt
    rw [hd, Option.map_some', toSizeT_of_nonneg d h0 hlt]

/-- C13, amended, at the shapes `[2,3]` and `[3,5]`. -/
theorem convert_shape_keeps_representable_witness :
    ((convert_shape sizeToInt64 [2, 3]).length = [2, 3].length
      ∧ ∀ (i : Nat) (d : Nat), [2, 3][i]? = some d → d < 2 ^ 63 →
          (convert_shape sizeToInt64 [2, 3])[i]? = some (d : Int))
    ∧ ((convert_shape sizeToInt [2, 3]).length = [2, 3].length
      ∧ ∀ (i : Nat) (d : Nat), [2, 3][i]? = some d → d < 2 ^ 31 →
          (convert_shape sizeToInt [2, 3])[i]? = some (d : Int))
    ∧ ((convert_shape toSizeT [3, 5]).length = [(3 : Int), 5].length
      ∧ ∀ (i : Nat) (d : Int), [(3 : Int), 5][i]? = some d → 0 ≤ d → d < 2 ^ 64 →
          (convert_shape toSizeT [3, 5])[i]? = some d.toNat) :=
  convert_shape_keeps_representable [2, 3] [3, 5]

/-! ## C14: repeated `infer_mimo` calls -/

/-- The input loop only appends to the member `inputTensors`. -/
theorem onnx_inputLoop_appends (itensors : List (Tensor α)) : ∀ (k i : Nat)
    (acc r : List (OrtValue α)), InferenceModelONNX.inputLoop itensors k i acc = some r →
    ∃ added, r = acc ++ added := by
  intro k
  induction k with
  | zero =>
    intro i acc r h
    simp only [InferenceModelONNX.inputLoop, Option.some.injEq] at h
    exact ⟨[], by simp [h]⟩
  | succ k ih =>
    intro i acc r h
    unfold InferenceModelONNX.inputLoop at h
    split at h
    · simp at h
    · obtain ⟨added, hr⟩ := ih _ _ _ h
      exact ⟨_ :: added, by rw [hr, List.append_assoc]; rfl⟩

/-- Once `inputTensors` holds `numInputs` values, the values that `Run` reads after the input
loop are those old ones, whatever the loop has appended for the current call. -/
theorem onnx_stale_inputs_submitted (itensors : List (Tensor α)) (k n : Nat)
    (acc r : List (OrtValue α)) (hn : n ≤ acc.length)
    (h : InferenceModelONNX.inputLoop itensors k 0 acc = some r) :
    readArray r n = some (acc.take n) := by
  obtain ⟨added, hr⟩ := onnx_inputLoop_appends itensors k 0 acc r h
  subst hr
  have hle : n ≤ (acc ++ added).length := by
    rw [List.length_append]; exact Nat.le_trans hn (Nat.le_add_right _ _)
  simp only [readArray, hle, if_true, List.take_append_of_le_length hn]

/-- Every `infer_mimo` call on an instance whose `inputTensors` is not empty (any call after
one that got as far as `Run`) and that declares an input ends in the use after free: it never
returns normally and never throws. -/
theorem onnx_infer_mimo_after_first_call (m : InferenceModelONNX α) (heap : Heap α)
    (tIn : List Nat) (input_names : List String) (tOut : List Nat) (output_names : List String)
    (hold : 0 < m.inputTensors.length) (hn : 0 < m.numInputs) :
    (m.infer_mimo heap tIn input_names tOut output_names).1 = Status.undefined := by
  unfold InferenceModelONNX.infer_mimo
  cases copyTensors heap tIn with
  | none => rfl
  | some itensors =>
    dsimp only
    cases InferenceModelONNX.inputLoop itensors input_names.length 0 m.inputTensors with
    | none => rfl
    | some inputTensors =>
      dsimp only
      split
      · rw [if_pos ⟨hold, hn⟩]
      · rfl

/-- C14. `InferenceModelONNX::infer_mimo` is not repeatable.  On the one-input echo model a
first call returns and leaves its value in the member `inputTensors`.  In a second call on the
same instance, with another input, the input loop appends a second value, and the one value
that `Run` then reads from the front of `inputTensors` is the value left by the first call,
whose buffer went with the first call's `itensors`: the second call is a use after free and
does not return the result for its own input. -/
theorem onnx_infer_mimo_resubmits_earlier_inputs :
    (echoONNX.infer_mimo [rightTensor23, leftTensor23] [0] ["in"] [1] ["out"]).1
        = Status.returned
    ∧ (echoONNX.infer_mimo [rightTensor23, leftTensor23] [0] ["in"] [1]
        ["out"]).2.1.inputTensors.length = 1
    ∧ ((copyTensors [otherTensor23, leftTensor23] [0]).bind fun itensors =>
        (InferenceModelONNX.inputLoop itensors 1 0
          (echoONNX.infer_mimo [rightTensor23, leftTensor23] [0] ["in"] [1]
            ["out"]).2.1.inputTensors).bind fun inputTensors =>
          readArray inputTensors echoONNX.numInputs)
      = some (echoONNX.infer_mimo [rightTensor23, leftTensor23] [0] ["in"] [1]
          ["out"]).2.1.inputTensors
    ∧ ((echoONNX.infer_mimo [rightTensor23, leftTensor23] [0] ["in"] [1] ["out"]).2.1.infer_mimo
        [otherTensor23, leftTensor23] [0] ["in"] [1] ["out"]).1 = Status.undefined
    ∧ ((echoONNX.infer_mimo [rightTensor23, leftTensor23] [0] ["in"] [1] ["out"]).2.1.infer_mimo
        [otherTensor23, leftTensor23] [0] ["in"] [1] ["out"]).1 ≠ Status.returned := by
  decide

/-! ## C15: `MLEngineONNX::infer` -/

theorem memcpy_zero {β : Type} (dst src : List β) : memcpy dst src 0 = some dst := by
  simp [memcpy]

theorem toInt32_toInt64_modEq (x : Int) : toInt32 (toInt64 x) % 2 ^ 32 = x % 2 ^ 32 := by
  unfold toInt32 toInt64
  omega

theorem toInt32_toInt64_range (x : Int) :
    -(2 ^ 31) ≤ toInt32 (toInt64 x) ∧ toInt32 (toInt64 x) < 2 ^ 31 := by
  unfold toInt32 toInt64
  omega

theorem out_size_fold_modEq (shape : List Int) : ∀ acc : Int,
    shape.foldl (fun out_size i => toInt32 (toInt64 (out_size * i))) acc % 2 ^ 32
      = acc * shape.prod % 2 ^ 32 := by
  induction shape with
  | nil => intro acc; simp
  | cons d ds ih =>
    intro acc
    simp only [List.foldl_cons, List.prod_cons]
    rw [ih, Int.mul_emod, toInt32_toInt64_modEq, ← Int.mul_emod, Int.mul_assoc]

theorem out_size_fold_range (shape : List Int) : ∀ acc : Int, -(2 ^ 31) ≤ acc → acc < 2 ^ 31 →
    -(2 ^ 31) ≤ shape.foldl (fun out_size i => toInt32 (toInt64 (out_size * i))) acc
    ∧ shape.foldl (fun out_size i => toInt32 (toInt64 (out_size * i))) acc < 2 ^ 31 := by
  induction shape with
  | nil => intro acc h1 h2; exact ⟨h1, h2⟩
  | cons d ds ih =>
    intro acc _ _
    simp only [List.foldl_cons]
    exact ih _ (toInt32_toInt64_range _).1 (toInt32_toInt64_range _).2

/-- Below `2^31` elements the `int` running product is the element count. -/
theorem out_size_eq_prod (shape : List Int) (h0 : 0 ≤ shape.prod) (h : shape.prod < 2 ^ 31) :
    MLEngineONNX.out_size shape = shape.prod := by
  have hm := out_size_fold_modEq shape 1
  have hr := out_size_fold_range shape 1 (by norm_num) (by norm_num)
  rw [Int.one_mul] at hm
  unfold MLEngineONNX.out_size
  omega

/-- On the one-node engine whose session returns the tensor value `front`,
`MLEngineONNX::infer` is its output stage. -/
theorem constEngine_infer (front : OrtValue Nat) (ht : front.IsTensor = true) :
    (((constEngine front).infer rightTensor23).1, ((constEngine front).infer rightTensor23).2.2)
      = if MLEngineONNX.out_size front.GetShape < 0 then (Status.threw, none)
        else
          match MLEngineONNX.copyOut
              (List.replicate (flatSize (convert_shape toSizeT front.GetShape)) none)
              front.GetTensorData (toSizeT (MLEngineONNX.out_size front.GetShape)) with
          | some d =>
            (Status.returned,
              some { shape := convert_shape toSizeT front.GetShape, data := d, isRight := false })
          | none => (Status.undefined, none) := by
  have hread : readArray rightTensor23.data rightTensor23.size = some rightTensor23.data := by
    decide
  unfold MLEngineONNX.infer
  rw [hread]
  simp only [constEngine, OrtValue.CreateTensor, readArray, List.length_singleton, le_refl,
    if_true, ht, Bool.true_eq_false, if_false]
  split
  · rfl
  · split <;> rename_i h <;> rw [h]

/-- C15. `MLEngineONNX::infer` does not return the whole output of a large engine tensor.  For the
output shape `[65536, 65536]` (`2^32` elements) the `int` running product `out_size` is `0`:
the call returns a tensor of that shape into which no element was copied.  For
`[65536, 65537]` it is `65536`, far below the element count, and for `[65536, 32768]` it is
`-2^31`, on which the call throws. -/
theorem mlengine_infer_out_size_wraps :
    MLEngineONNX.out_size [65536, 65536] = 0
    ∧ flatSize (convert_shape toSizeT [65536, 65536]) = 2 ^ 32
    ∧ MLEngineONNX.out_size [65536, 65537] = 65536
    ∧ flatSize (convert_shape toSizeT [65536, 65537]) = 2 ^ 32 + 65536
    ∧ MLEngineONNX.out_size [65536, 32768] = -(2 ^ 31)
    ∧ (∀ floatarr : List Nat,
        ((constEngine (ortOutOf [65536, 65536] floatarr)).infer rightTensor23).1 = Status.returned
        ∧ ((constEngine (ortOutOf [65536, 65536] floatarr)).infer rightTensor23).2.2
            = some
                { shape := convert_shape toSizeT [65536, 65536]
                  data := List.replicate (flatSize (convert_shape toSizeT [65536, 65536])) none
                  isRight := false })
    ∧ (∀ floatarr : List Nat,
        ((constEngine (ortOutOf [65536, 32768] floatarr)).infer rightTensor23).1 = Status.threw) := by
  have h0 : MLEngineONNX.out_size [65536, 65536] = 0 := by decide
  have h1 : MLEngineONNX.out_size [65536, 32768] = -(2 ^ 31) := by decide
  refine ⟨h0, by decide, by decide, by decide, h1, ?_, ?_⟩
  · intro floatarr
    have h := constEngine_infer (ortOutOf [65536, 65536] floatarr) rfl
    rw [show (ortOutOf [65536, 65536] floatarr).GetShape = [65536, 65536] from rfl, h0] at h
    generalize List.replicate (flatSize (convert_shape toSizeT [65536, 65536]))
      (none : Option Nat) = pred at h ⊢
    rw [if_neg (by decide), show toSizeT 0 = 0 by decide, MLEngineONNX.copyOut, memcpy_zero] at h
    simp only [Prod.mk.injEq] at h
    exact h
  · intro floatarr
    have h := constEngine_infer (ortOutOf [65536, 32768] floatarr) rfl
    rw [show (ortOutOf [65536, 32768] floatarr).GetShape = [65536, 32768] from rfl, h1,
      if_pos (by decide)] at h
    simp only [Prod.mk.injEq] at h
    exact h.1

end Infero
